import Mathlib

/-!
# Verification of the CppBrainfuck toolchain against its specification

Shallow embedding of the parts of koturn/CppBrainfuck that the claims
C1..C10 are about:

* the default output-file naming of the CLI (`main.cpp`, third variant:
  `getDefaultOutputName`, `getSuffix`, `removeDirectoryPart`, `removeSuffix`);
* the CLI control flow of the `main` functions (exit codes, `--dump-ir`
  precedence, error paths);
* the C textual backend `GeneratorC` (emitted statements, indentation);
* the ELF x86 binary backend `GeneratorElfX86` (byte emission, loop
  backpatching, ELF file layout);
* a fuel-based interpreter for the IR semantics of the specification,
  and its variant realising the Getchar statement the C backend emits.

Strings of the repository are modelled as `List Char`, byte sinks as
`List Nat` with every element a byte value; machine arithmetic is `Int`
with explicit reductions modulo 256 resp. 2^32.
-/

namespace CppBrainfuck

/-! ## Targets (Brainfuck::Target of Brainfuck.hpp, as used by the CLI) -/

/-- The emission targets of the toolchain (enum `Brainfuck::Target`).
Modelled from the spec: `Brainfuck.hpp` is not among the given sources;
the spec lists `target ∈ {none, c, xbyakc, winx86, winx64, elfx86, elfx64,
elfarmeabi}` and the CLI maps the same seven strings to enum values. -/
inductive Target where
  | kC
  | kXbyakC
  | kWinX86
  | kWinX64
  | kElfX86
  | kElfX64
  | kElfArmeabi
deriving DecidableEq, Repr

/-! ## Default output-file naming (main.cpp, variant with `--output`) -/

/-- Index of the last occurrence of `c` in `s`
(C++ `std::string::find_last_of`, `none` playing the role of `npos`). -/
def lastIndexOf (c : Char) (s : List Char) : Option Nat :=
  match s with
  | [] => none
  | x :: xs =>
    match lastIndexOf c xs with
    | some i => some (i + 1)
    | none => if x = c then some 0 else none

/-- `removeDirectoryPart` of main.cpp: everything after the last `/`,
or the whole path if there is no `/`. -/
def removeDirectoryPart (filepath : List Char) : List Char :=
  match lastIndexOf '/' filepath with
  | none => filepath
  | some pos => filepath.drop (pos + 1)

/-- `removeSuffix` of main.cpp: cut at the last `.`; when there is no `.`
the source appends a literal `.` to the filename. -/
def removeSuffix (filename : List Char) : List Char :=
  match lastIndexOf '.' filename with
  | none => filename ++ ['.']
  | some pos => filename.take pos

/-- `getSuffix` of main.cpp: output-file suffix for each target. -/
def getSuffix (targetType : Target) : List Char :=
  match targetType with
  | .kC | .kXbyakC => ['.', 'c']
  | .kWinX86 | .kWinX64 => ['.', 'e', 'x', 'e']
  | .kElfX86 | .kElfX64 | .kElfArmeabi => ['.', 'o', 'u', 't']

/-- `getDefaultOutputName` of main.cpp. -/
def getDefaultOutputName (inputFile : List Char) (targetType : Target) : List Char :=
  removeSuffix (removeDirectoryPart inputFile) ++ getSuffix targetType

/-- The output name the spec's words describe: the input's basename with
the directory part and the trailing extension removed, followed by the
target's suffix.  Modelled from the spec for comparison with
`getDefaultOutputName`: "the output filename is the input's basename
(directory and trailing extension removed) with suffix by target". -/
def specDefaultOutputName (inputFile : List Char) (targetType : Target) : List Char :=
  let basename := removeDirectoryPart inputFile
  let stem :=
    match lastIndexOf '.' basename with
    | none => basename
    | some pos => basename.take pos
  stem ++ getSuffix targetType

/-! ### Lemmas about `lastIndexOf` -/

theorem lastIndexOf_eq_none {c : Char} {s : List Char} :
    lastIndexOf c s = none ↔ c ∉ s := by
  induction s with
  | nil => simp [lastIndexOf]
  | cons x xs ih =>
    simp only [lastIndexOf, List.mem_cons]
    cases h : lastIndexOf c xs with
    | some i => simp_all
    | none =>
      rcases ih.mp h with hn
      by_cases hx : x = c <;> simp_all [eq_comm]

theorem mem_of_lastIndexOf_ne_none {c : Char} {s : List Char}
    (h : lastIndexOf c s ≠ none) : c ∈ s := by
  by_contra hc
  exact h (lastIndexOf_eq_none.mpr hc)

theorem lastIndexOf_not_mem_drop {c : Char} {s : List Char} (h : c ∉ s) :
    lastIndexOf c (s.drop n) = none := by
  refine lastIndexOf_eq_none.mpr fun hmem => h ?_
  exact List.mem_of_mem_drop hmem

/-- Claim C5, counterexample: for the input path "prog" (no dot) and target
elfx86, the code computes "prog..out", not the "prog.out" the claim's rule
(basename minus trailing extension, plus suffix) yields. -/
theorem c5_counterexample_no_dot_input :
    getDefaultOutputName ['p', 'r', 'o', 'g'] Target.kElfX86
        ≠ specDefaultOutputName ['p', 'r', 'o', 'g'] Target.kElfX86 ∧
      getDefaultOutputName ['p', 'r', 'o', 'g'] Target.kElfX86
        = ['p', 'r', 'o', 'g', '.', '.', 'o', 'u', 't'] := by
  decide

/-- Claim C5, amended: whenever the input's basename contains a '.', the
default output name equals the basename with the trailing extension removed
followed by exactly the target's suffix (".c" for c and xbyakc, ".exe" for
winx86 and winx64, ".out" for the ELF targets); when the basename contains
no '.', the code first appends a literal '.' to the basename. -/
theorem c5_default_output_name_with_dot (s : List Char) (t : Target)
    (h : '.' ∈ removeDirectoryPart s) :
    getDefaultOutputName s t = specDefaultOutputName s t := by
  unfold getDefaultOutputName specDefaultOutputName removeSuffix
  cases hidx : lastIndexOf '.' (removeDirectoryPart s) with
  | none => exact absurd (lastIndexOf_eq_none.mp hidx) (by simpa using h)
  | some pos => simp [hidx]

/-- Witness for `c5_default_output_name_with_dot` at input "d/prog.b",
target c: both computations give "prog.c". -/
theorem c5_default_output_name_with_dot_witness :
    '.' ∈ removeDirectoryPart ['d', '/', 'p', 'r', 'o', 'g', '.', 'b'] ∧
      getDefaultOutputName ['d', '/', 'p', 'r', 'o', 'g', '.', 'b'] Target.kC
        = specDefaultOutputName ['d', '/', 'p', 'r', 'o', 'g', '.', 'b'] Target.kC :=
  ⟨by decide, c5_default_output_name_with_dot _ _ (by decide)⟩

/-- Claim C10: for every input filename containing no '.', the default
output-name computation appends a literal '.' to the basename before the
target suffix; in particular input "prog" with target elfx64 yields
"prog..out" with a doubled dot. -/
theorem c10_no_dot_appends_dot (s : List Char) (t : Target) (h : '.' ∉ s) :
    getDefaultOutputName s t = removeDirectoryPart s ++ '.' :: getSuffix t ∧
      getDefaultOutputName ['p', 'r', 'o', 'g'] Target.kElfX64
        = ['p', 'r', 'o', 'g', '.', '.', 'o', 'u', 't'] := by
  constructor
  · unfold getDefaultOutputName removeSuffix
    have hb : lastIndexOf '.' (removeDirectoryPart s) = none := by
      unfold removeDirectoryPart
      cases lastIndexOf '/' s with
      | none => exact lastIndexOf_eq_none.mpr h
      | some pos => exact lastIndexOf_not_mem_drop h
    simp [hb]
  · decide

/-- Witness for `c10_no_dot_appends_dot` at input "prog", target elfx64. -/
theorem c10_no_dot_appends_dot_witness :
    '.' ∉ ['p', 'r', 'o', 'g'] ∧
      getDefaultOutputName ['p', 'r', 'o', 'g'] Target.kElfX64
        = removeDirectoryPart ['p', 'r', 'o', 'g'] ++ '.' :: getSuffix Target.kElfX64 :=
  ⟨by decide, (c10_no_dot_appends_dot ['p', 'r', 'o', 'g'] Target.kElfX64 (by decide)).1⟩

/-! ## CLI model

The repository carries three variants of `main.cpp`.  `mainV3` models the
variant with `--eval`, `--output` and `--top-break-point` (the CLI surface
of the spec); `mainV1` models the oldest variant, in which the special
case for target "xbyakc" precedes the `--dump-ir` check.  The collaborator
operations the spec treats as external (file loading, compilation,
execution, opening the output stream) are abstracted into a `CliWorld`:
`some msg` means the operation throws an exception carrying `msg`, which
the `try`/`catch` of `main` prints to `std::cerr` before `main` returns
`EXIT_SUCCESS`. -/

/-- Observable top-level operations of a CLI run. -/
inductive MainAction where
  | showUsage
  | showVersion
  | printMinified
  | dumpIR
  | dumpXbyak
  | emitTarget (t : Target) (file : List Char)
  | execute (heapSize : Nat)
deriving DecidableEq

/-- Exit code, lines printed to standard error, operations performed. -/
structure MainResult where
  exitCode : Nat
  errLines : List (List Char)
  actions : List MainAction
deriving DecidableEq

/-- Parsed command-line options of the CLI (defaults as in the source:
empty strings, false flags, optimize 1, heap-size 65536). -/
structure CliConfig where
  evalSrc : List Char
  help : Bool
  minify : Bool
  output : List Char
  target : List Char
  version : Bool
  optimize : Int
  dumpIr : Bool
  heapSize : Nat
  topBreakPoint : Bool
  args : List (List Char)

/-- Outcomes of the collaborator operations: `some msg` is a thrown
exception whose `what()` is `msg`, `none` is success. -/
structure CliWorld where
  loadFileResult : List Char → Option (List Char)
  loadStdinResult : Option (List Char)
  compileResult : Option (List Char)
  executeResult : Option (List Char)
  openOk : List Char → Bool

/-- Default option values of the source. -/
def defaultConfig : CliConfig :=
  { evalSrc := [], help := false, minify := false, output := [], target := []
    version := false, optimize := 1, dumpIr := false, heapSize := 65536
    topBreakPoint := false, args := [] }

/-- World in which every collaborator operation succeeds. -/
def okWorld : CliWorld :=
  { loadFileResult := fun _ => none, loadStdinResult := none
    compileResult := none, executeResult := none, openOk := fun _ => true }

/-- The target-name table of `main` (`targetMap`). -/
def parseTarget (s : List Char) : Option Target :=
  if s = ("c").data then some Target.kC
  else if s = ("xbyakc").data then some Target.kXbyakC
  else if s = ("winx86").data then some Target.kWinX86
  else if s = ("winx64").data then some Target.kWinX64
  else if s = ("elfx86").data then some Target.kElfX86
  else if s = ("elfx64").data then some Target.kElfX64
  else if s = ("elfarmeabi").data then some Target.kElfArmeabi
  else none

/-- Message of `main` when no positional argument names a source file. -/
def pleaseSpecifyMsg : List Char :=
  ("Please specify one brainfuck source code").data

/-- Message of `main` for an unknown `--target` value. -/
def invalidTargetMsg (t : List Char) : List Char :=
  ("Option -t, --target: Invalid value: \"").data ++ t ++ ("\" is specified").data

/-- Message of `main` when the output stream cannot be opened. -/
def failedToOpenMsg (f : List Char) : List Char :=
  ("Failed to open: ").data ++ f

/-- Input-file name used for default output naming when the source came
from `--eval` or standard input (`std::string inputFile = "a.b";`). -/
def defaultInputName : List Char := ("a.b").data

/-- Continuation of `main` after the source is loaded and trimmed:
minify, dump-ir, target dispatch, or compile-and-execute. -/
def mainV3AfterLoad (cfg : CliConfig) (w : CliWorld) (inputFile : List Char) :
    MainResult :=
  if cfg.minify then ⟨0, [], [.printMinified]⟩
  else if cfg.dumpIr then
    match w.compileResult with
    | some msg => ⟨0, [msg], []⟩
    | none => ⟨0, [], [.dumpIR]⟩
  else if cfg.target ≠ [] then
    match parseTarget cfg.target with
    | none => ⟨1, [invalidTargetMsg cfg.target], []⟩
    | some t =>
      match w.compileResult with
      | some msg => ⟨0, [msg], []⟩
      | none =>
        let outputFile :=
          if cfg.output ≠ [] then cfg.output
          else getDefaultOutputName inputFile t
        if w.openOk outputFile then ⟨0, [], [.emitTarget t outputFile]⟩
        else ⟨1, [failedToOpenMsg outputFile], []⟩
  else
    match (if 1 ≤ cfg.optimize then w.compileResult else none) with
    | some msg => ⟨0, [msg], []⟩
    | none =>
      match w.executeResult with
      | some msg => ⟨0, [msg], [.execute cfg.heapSize]⟩
      | none => ⟨0, [], [.execute cfg.heapSize]⟩

/-- The `main` of the CLI variant with `--eval`/`--output` support,
transliterated branch for branch.  Every exception is caught by the final
`catch`, which prints the diagnostic and falls through to
`return EXIT_SUCCESS;`. -/
def mainV3 (cfg : CliConfig) (w : CliWorld) : MainResult :=
  if cfg.help then ⟨0, [], [.showUsage]⟩
  else if cfg.version then ⟨0, [], [.showVersion]⟩
  else if cfg.evalSrc = [] ∧ cfg.args = [] then
    ⟨1, [pleaseSpecifyMsg], []⟩
  else
    -- source selection: --eval wins, else args[0] ("-" = stdin), and
    -- inputFile keeps its default "a.b" except for a real file argument
    let loaded : Option (List Char) × List Char :=
      if cfg.evalSrc ≠ [] then (none, defaultInputName)
      else
        match cfg.args with
        | [] => (none, defaultInputName)
        | a :: _ =>
          if a = ['-'] then (w.loadStdinResult, defaultInputName)
          else (w.loadFileResult a, a)
    match loaded.1 with
    | some msg => ⟨0, [msg], []⟩
    | none => mainV3AfterLoad cfg w loaded.2

/-- Message of the oldest `main` when no positional argument is given. -/
def pleaseSpecifyV1Msg : List Char :=
  ("Please specify one or more brainfuck source code").data

/-- Loop body of the oldest `main` for `--dump-ir`: per file load, trim,
compile and dump; an exception aborts the remaining files. -/
def v1DumpLoop (w : CliWorld) : List (List Char) → List MainAction → MainResult
  | [], acc => ⟨0, [], acc.reverse⟩
  | f :: rest, acc =>
    match w.loadFileResult f with
    | some msg => ⟨0, [msg], acc.reverse⟩
    | none =>
      match w.compileResult with
      | some msg => ⟨0, [msg], acc.reverse⟩
      | none => v1DumpLoop w rest (.dumpIR :: acc)

/-- Execution loops of the oldest `main` (the three optimization levels
differ only in whether `compile` is invoked before `execute`). -/
def v1RunLoop (w : CliWorld) (doCompile : Bool) (heapSize : Nat) :
    List (List Char) → List MainAction → MainResult
  | [], acc => ⟨0, [], acc.reverse⟩
  | f :: rest, acc =>
    match w.loadFileResult f with
    | some msg => ⟨0, [msg], acc.reverse⟩
    | none =>
      match (if doCompile then w.compileResult else none) with
      | some msg => ⟨0, [msg], acc.reverse⟩
      | none =>
        match w.executeResult with
        | some msg => ⟨0, [msg], (MainAction.execute heapSize :: acc).reverse⟩
        | none => v1RunLoop w doCompile heapSize rest (.execute heapSize :: acc)

/-- The oldest `main` of the repository, in which the check
`target == "xbyakc"` precedes the `--dump-ir` check. -/
def mainV1 (cfg : CliConfig) (w : CliWorld) : MainResult :=
  if cfg.help then ⟨0, [], [.showUsage]⟩
  else
    match cfg.args with
    | [] => ⟨1, [pleaseSpecifyV1Msg], []⟩
    | a :: _ =>
      if cfg.minify then
        -- the minify loop returns EXIT_SUCCESS after its first file
        match w.loadFileResult a with
        | some msg => ⟨0, [msg], []⟩
        | none => ⟨0, [], [.printMinified]⟩
      else if cfg.target = ("xbyakc").data then
        match w.loadFileResult a with
        | some msg => ⟨0, [msg], []⟩
        | none =>
          match w.compileResult with
          | some msg => ⟨0, [msg], []⟩
          | none => ⟨0, [], [.dumpXbyak]⟩
      else if cfg.dumpIr then v1DumpLoop w cfg.args []
      else if cfg.optimize < 1 then v1RunLoop w false cfg.heapSize cfg.args []
      else v1RunLoop w true cfg.heapSize cfg.args []

/-- Claim C4: the claim requires a non-zero exit code whenever a core
operation fails, but the CLI's `catch` block prints the diagnostic and then
falls through to `return EXIT_SUCCESS;`: on a failing load (IoError) the
process prints the message to standard error yet exits with code 0.  This
theorem evaluates the CLI model at that failing input. -/
theorem c4_caught_exception_exits_zero :
    (mainV3 { defaultConfig with args := [("nofile.b").data] }
        { okWorld with
            loadFileResult := fun _ => some (("Cannot open file: nofile.b").data) }).exitCode
        = 0 ∧
      (mainV3 { defaultConfig with args := [("nofile.b").data] }
          { okWorld with
              loadFileResult := fun _ => some (("Cannot open file: nofile.b").data) }).errLines
        = [("Cannot open file: nofile.b").data] := by
  decide

/-- Claim C6, counterexample: in the oldest CLI variant the check
`target == "xbyakc"` precedes the `--dump-ir` check, so the command line
`--dump-ir -t xbyakc a.b` dumps the Xbyak target output and never prints
the IR dump. -/
theorem c6_counterexample_xbyakc_beats_dump_ir :
    mainV1
        { defaultConfig with
            dumpIr := true
            target := ("xbyakc").data
            args := [("a.b").data] } okWorld
        = ⟨0, [], [MainAction.dumpXbyak]⟩ ∧
      MainAction.dumpIR ∉
        (mainV1
            { defaultConfig with
                dumpIr := true
                target := ("xbyakc").data
                args := [("a.b").data] } okWorld).actions := by
  decide

/-- Claim C6, amended: in the CLI variant with `--output` support the
`--dump-ir` check precedes the target dispatch, so whenever both
`--dump-ir` and a `--target` value are given (and the run reaches the
dump, i.e. help/version/minify are absent, a source is given and loading
and compilation succeed) the program prints the IR dump, exits 0, and
emits no target output; in the oldest variant target xbyakc instead takes
precedence over `--dump-ir`. -/
theorem c6_dump_ir_precedes_target (cfg : CliConfig) (w : CliWorld)
    (hh : cfg.help = false) (hv : cfg.version = false) (hm : cfg.minify = false)
    (hd : cfg.dumpIr = true)
    (hsrc : ¬(cfg.evalSrc = [] ∧ cfg.args = []))
    (hl : ∀ a, w.loadFileResult a = none) (hs : w.loadStdinResult = none)
    (hc : w.compileResult = none) :
    mainV3 cfg w = ⟨0, [], [MainAction.dumpIR]⟩ ∧
      ∀ t f, MainAction.emitTarget t f ∉ (mainV3 cfg w).actions := by
  have hmain : mainV3 cfg w = ⟨0, [], [MainAction.dumpIR]⟩ := by
    unfold mainV3 mainV3AfterLoad
    rw [if_neg (by simp [hh]), if_neg (by simp [hv]), if_neg hsrc]
    by_cases he : cfg.evalSrc = []
    · cases hargs : cfg.args with
      | nil => exact absurd ⟨he, hargs⟩ hsrc
      | cons a rest =>
        by_cases ha : a = ['-'] <;>
          simp [he, hargs, ha, hs, hl, hm, hd, hc]
    · simp [he, hm, hd, hc]
  refine ⟨hmain, ?_⟩
  intro t f
  rw [hmain]
  simp

/-- Witness for `c6_dump_ir_precedes_target`: command line
`--dump-ir -t c a.b` in the all-success world. -/
theorem c6_dump_ir_precedes_target_witness :
    mainV3
        { defaultConfig with
            dumpIr := true
            target := ("c").data
            args := [("a.b").data] } okWorld
      = ⟨0, [], [MainAction.dumpIR]⟩ :=
  (c6_dump_ir_precedes_target _ _ rfl rfl rfl rfl (by decide)
    (fun _ => rfl) rfl rfl).1

/-! ## C textual backend (GeneratorC)

The generator state is the text written to the output stream together
with the indentation level (`SourceGenerator` members).  The indentation
unit is the constructor default `"  "` used by the CLI. -/

/-- The indentation unit (constructor default `indent_ = "  "`). -/
def cIndent : String := "  "

/-- Output-stream text and indentation level of `GeneratorC`. -/
structure CGenState where
  out : String
  indentLevel : Nat
deriving DecidableEq

/-- Text appended by `emitIndent()`: the indentation unit repeated
`indentLevel` times (the source loops `indentLevel` times over
`oStream << indent`). -/
def indentText : Nat → String
  | 0 => ""
  | n + 1 => indentText n ++ cIndent

/-- Text of `GeneratorC::emitHeaderImpl` (the concatenated literal, then
`indent` and the two declaration lines); the hook also increments the
indentation level. -/
def cHeaderText : String :=
  "#include <signal.h>\n#include <stdio.h>\n#include <stdlib.h>\n#include <string.h>\n\n"
    ++ "#define MEMORY_SIZE 65536\n\n"
    ++ "#ifdef _MSC_VER\n#  define debugbreak __debugbreak\n#else\n"
    ++ "__attribute__((gnu_inline, always_inline))\n__inline__ static void\ndebugbreak(void)\n\x7b\n"
    ++ "#  if defined(__i386__) || defined(__x86_64__)\n  __asm__ volatile(\"int $0x03\");\n"
    ++ "#  elif defined(__thumb__)\n  __asm__ volatile(\".inst 0xde01\");\n"
    ++ "#  elif defined(__arm__) && !defined(__thumb__)\n  __asm__ volatile(\".inst 0xe7f001f0\");\n"
    ++ "#  elif defined(__aarch64__) && defined(__APPLE__)\n  __builtin_trap();\n"
    ++ "#  elif defined(__aarch64__)\n  __asm__ volatile(\".inst 0xd4200000\");\n"
    ++ "#  elif defined(_WIN32)\n  __builtin_trap();\n"
    ++ "#  else\n  raise(SIGTRAP);\n#  endif\n\x7d\n#endif\n\n"
    ++ "int\nmain(void)\n\x7b\n"
    ++ cIndent ++ "unsigned char memory[MEMORY_SIZE] = \x7b0\x7d;\n"
    ++ cIndent ++ "unsigned char *p = memory;\n\n"

/-- `GeneratorC::emitHeaderImpl`. -/
def emitHeaderC (st : CGenState) : CGenState :=
  { out := st.out ++ cHeaderText, indentLevel := st.indentLevel + 1 }

/-- `GeneratorC::emitFooterImpl` (`std::endl` is the final newline). -/
def emitFooterC (st : CGenState) : CGenState :=
  { st with out :=
      st.out ++ cIndent ++ "putchar('\\n');\n\n" ++ cIndent ++ "return EXIT_SUCCESS;\n\x7d\n" }

/-- The flat IR operation alphabet driven through the `GeneratorC` hooks. -/
inductive COp where
  | movePtr (d : Int)
  | add (v : Int)
  | putc
  | getc
  | loopStart
  | loopEnd
  | ifStart
  | ifEnd
  | assign (v : Int)
  | searchZero (d : Int)
  | addVar (o : Int)
  | subVar (o : Int)
  | addCMulVar (o : Int) (k : Int)
  | infLoop
  | breakPoint
deriving DecidableEq

/-- Statement text of `GeneratorC::emitMovePointerImpl`. -/
def cMovePtrText (op1 : Int) : String :=
  if op1 > 0 then
    if op1 = 1 then "p++;\n" else "p += " ++ toString op1 ++ ";\n"
  else
    if op1 = -1 then "p--;\n" else "p -= " ++ toString (-op1) ++ ";\n"

/-- Statement text of `GeneratorC::emitAddImpl`. -/
def cAddText (op1 : Int) : String :=
  if op1 > 0 then
    if op1 = 1 then "(*p)++;\n" else "*p += " ++ toString op1 ++ ";\n"
  else
    if op1 = -1 then "(*p)--;\n" else "*p -= " ++ toString (-op1) ++ ";\n"

/-- Statement text of `GeneratorC::emitSearchZeroImpl`. -/
def cSearchZeroText (op1 : Int) : String :=
  if op1 > 0 then
    if op1 = 1 then "p = memchr(p, 0, sizeof(memory));\n"
    else "for (; *p; p += " ++ toString op1 ++ ");\n"
  else
    if op1 = -1 then "for (; *p; p--);\n"
    else "for (; *p; p -= " ++ toString (-op1) ++ ");\n"

/-- Pointer-offset prefix `*(p + k)` / `*(p - k)` shared by the AddVar,
SubVar and AddCMulVar statements. -/
def cOffsetText (op1 : Int) : String :=
  if op1 > 0 then "*(p + " ++ toString op1 else "*(p - " ++ toString (-op1)

/-- Statement text appended by one `GeneratorC` hook invocation at
indentation level `lvl` (for the closing hooks the indentation is emitted
after the decrement, as in the source). -/
def emitOpCText (op : COp) (lvl : Nat) : String :=
  let pre := indentText lvl
  match op with
  | .movePtr d => pre ++ cMovePtrText d
  | .add v => pre ++ cAddText v
  | .putc => pre ++ "putchar(*p);\n"
  | .getc => pre ++ "*p = (unsigned char) getchar();\n"
  | .loopStart => pre ++ "while (*p) \x7b\n"
  | .loopEnd => indentText (lvl - 1) ++ "\x7d\n"
  | .ifStart => pre ++ "if (*p) \x7b\n"
  | .ifEnd => indentText (lvl - 1) ++ "\x7d\n"
  | .assign v => pre ++ "*p = " ++ toString v ++ ";\n"
  | .searchZero d => pre ++ cSearchZeroText d
  | .addVar o => pre ++ cOffsetText o ++ ") += *p;\n"
  | .subVar o => pre ++ cOffsetText o ++ ") -= *p;\n"
  | .addCMulVar o k => pre ++ cOffsetText o ++ ") += *p * " ++ toString k ++ ";\n"
  | .infLoop =>
    pre ++ "if (*p) \x7b\n" ++ pre ++ cIndent ++ "for (;;);\n" ++ pre ++ "\x7d\n"
  | .breakPoint => pre ++ "debugbreak();\n"

/-- One `GeneratorC` hook invocation: appends the statement at the current
indentation and updates the indentation level exactly as the source does. -/
def emitOpC (op : COp) (st : CGenState) : CGenState :=
  { out := st.out ++ emitOpCText op st.indentLevel
    indentLevel :=
      match op with
      | .loopStart | .ifStart => st.indentLevel + 1
      | .loopEnd | .ifEnd => st.indentLevel - 1
      | _ => st.indentLevel }

/-- Traversal of the backend framework: header, one hook per op, footer. -/
def emitOpsC (ops : List COp) (st : CGenState) : CGenState :=
  ops.foldl (fun s op => emitOpC op s) st

/-- State after `emitHeaderImpl` on a fresh generator. -/
def headerCState : CGenState := emitHeaderC ⟨"", 0⟩

/-- Complete C program emitted for an IR listing. -/
def cProgramText (ops : List COp) : String :=
  (emitFooterC (emitOpsC ops headerCState)).out

/-! ### Indentation discipline of the C backend -/

/-- Contribution of one op to the bracket depth: the LoopStart/IfStart
hooks open a brace, the LoopEnd/IfEnd hooks close one. -/
def bracketDelta (op : COp) : Int :=
  match op with
  | .loopStart | .ifStart => 1
  | .loopEnd | .ifEnd => -1
  | _ => 0

/-- Valid bracket pairing, counted: no prefix closes more brackets than it
opened, and the whole listing closes every bracket. -/
def balancedC (ops : List COp) : Prop :=
  (∀ n < ops.length + 1, 0 ≤ ((ops.take n).map bracketDelta).sum) ∧
    (ops.map bracketDelta).sum = 0

instance (ops : List COp) : Decidable (balancedC ops) := by
  unfold balancedC; infer_instance

theorem emitOpC_indentLevel (op : COp) (st : CGenState)
    (h : 1 ≤ (st.indentLevel : Int) + bracketDelta op) :
    ((emitOpC op st).indentLevel : Int) = st.indentLevel + bracketDelta op := by
  cases op <;> simp [emitOpC, bracketDelta] at h ⊢ <;> omega

theorem emitOpsC_indentLevel (ops : List COp) (st : CGenState)
    (h : ∀ n < ops.length + 1,
      1 ≤ (st.indentLevel : Int) + ((ops.take n).map bracketDelta).sum) :
    ((emitOpsC ops st).indentLevel : Int)
      = st.indentLevel + (ops.map bracketDelta).sum := by
  induction ops generalizing st with
  | nil => simp [emitOpsC]
  | cons op rest ih =>
    have h1 : 1 ≤ (st.indentLevel : Int) + bracketDelta op := by
      have := h 1 (by simp); simpa using this
    have hop := emitOpC_indentLevel op st h1
    have hrest : ((emitOpsC rest (emitOpC op st)).indentLevel : Int)
        = (emitOpC op st).indentLevel + (rest.map bracketDelta).sum := by
      refine ih (emitOpC op st) fun n hn => ?_
      have := h (n + 1) (by simpa using hn)
      rw [hop]
      simpa [add_assoc] using this
    have hfold : emitOpsC (op :: rest) st = emitOpsC rest (emitOpC op st) := rfl
    rw [hfold, hrest, hop]
    simp [add_assoc]

/-- Claim C9: in the C textual backend each LoopStart/IfStart hook
increments the indentation level by exactly one and each LoopEnd/IfEnd
hook decrements it by exactly one, the other hooks leave it unchanged,
so for every IR listing with valid bracket pairing the level after the
full traversal equals the level 1 set by the header, and after any prefix
of the traversal it never drops below 1. -/
theorem c9_indentation_discipline (ops : List COp) (hbal : balancedC ops) :
    (∀ st, (emitOpC COp.loopStart st).indentLevel = st.indentLevel + 1) ∧
      (∀ st, (emitOpC COp.ifStart st).indentLevel = st.indentLevel + 1) ∧
      (∀ st, 1 ≤ st.indentLevel →
        (emitOpC COp.loopEnd st).indentLevel + 1 = st.indentLevel) ∧
      (∀ st, 1 ≤ st.indentLevel →
        (emitOpC COp.ifEnd st).indentLevel + 1 = st.indentLevel) ∧
      (∀ st op, bracketDelta op = 0 → (emitOpC op st).indentLevel = st.indentLevel) ∧
      headerCState.indentLevel = 1 ∧
      (emitOpsC ops headerCState).indentLevel = 1 ∧
      (∀ pre suf, ops = pre ++ suf → 1 ≤ (emitOpsC pre headerCState).indentLevel) := by
  obtain ⟨hpre, hsum⟩ := hbal
  have hlevel : ∀ pre suf, ops = pre ++ suf →
      ((emitOpsC pre headerCState).indentLevel : Int)
        = 1 + (pre.map bracketDelta).sum := by
    intro pre suf hsplit
    have hh : (headerCState.indentLevel : Int) = 1 := by simp [headerCState, emitHeaderC]
    have := emitOpsC_indentLevel pre headerCState fun n hn => by
      rw [hh]
      have htake : pre.take n = ops.take n := by
        subst hsplit
        exact (List.take_append_of_le_length (by omega)).symm
      have := hpre n (by subst hsplit; simp; omega)
      rw [htake]; omega
    rw [this, hh]
  refine ⟨fun st => rfl, fun st => rfl, ?_, ?_, ?_, rfl, ?_, ?_⟩
  · intro st h; simp [emitOpC]; omega
  · intro st h; simp [emitOpC]; omega
  · intro st op h
    cases op <;> simp_all [emitOpC, bracketDelta]
  · have := hlevel ops [] (by simp)
    rw [hsum] at this
    omega
  · intro pre suf hsplit
    have := hlevel pre suf hsplit
    have hn := hpre pre.length (by subst hsplit; simp; omega)
    have htake : ops.take pre.length = pre := by subst hsplit; simp
    rw [htake] at hn
    omega

/-- Witness for `c9_indentation_discipline` at the balanced listing
`[loopStart, add 1, loopEnd]`. -/
theorem c9_indentation_discipline_witness :
    balancedC [COp.loopStart, COp.add 1, COp.loopEnd] ∧
      (emitOpsC [COp.loopStart, COp.add 1, COp.loopEnd] headerCState).indentLevel = 1 :=
  ⟨by decide, (c9_indentation_discipline _ (by decide)).2.2.2.2.2.2.1⟩

/-! ## IR semantics

A fuel-indexed small-step interpreter over structured IR (the flat
listing with its valid bracket pairing read back as nested loops).
Modelled from the spec: the interpreter lives in `Brainfuck.hpp`, which is
not among the given sources; the spec defines the semantics table of §3
(cells are bytes wrapping modulo 256, `Getchar` reads one byte into
`tape[p]` and on EOF leaves the cell unchanged, `LoopStart`/`LoopEnd` are
a while-over-nonzero, `IfStart`/`IfEnd` execute the body at most once,
`SearchZero(d)` moves the pointer by `d` while the cell is non-zero,
`InfLoop` loops forever on a non-zero cell).  The tape is modelled as a
total map `Int → Nat` so that the claim about stdout and EOF is isolated
from bounds checking; both machines compared by C1 share it.

The interpreter is parameterised by `onEof`, the value stored by Getchar
when the input is exhausted; the state records in `eofHit` whether any
Getchar ever saw an exhausted input.  `irEof` is the spec's operation
(leave the cell unchanged); `cEof` is the statement the C backend emits,
`*p = (unsigned char) getchar();`, which on EOF stores
`(unsigned char) EOF = 255`. -/

/-- Structured IR operations (a flat listing with valid pairing, loops
and if-blocks nested). -/
inductive Ir where
  | movePtr (d : Int)
  | add (v : Int)
  | assign (v : Int)
  | putc
  | getc
  | loop (body : List Ir)
  | ifNZ (body : List Ir)
  | searchZero (d : Int)
  | addVar (off : Int)
  | subVar (off : Int)
  | addMulVar (off : Int) (k : Int)
  | infLoop
  | breakPoint

/-- Machine state: tape, data pointer, remaining input, emitted output,
and whether a Getchar has met an exhausted input. -/
structure BfState where
  tape : Int → Nat
  ptr : Int
  input : List Nat
  output : List Nat
  eofHit : Bool

/-- Byte reduction of an integer. -/
def toByte (v : Int) : Nat := (v % 256).toNat

/-- Tape write helper: store byte `v` at cell `i`. -/
def tapeUpd (s : BfState) (i : Int) (v : Nat) : BfState :=
  { s with tape := Function.update s.tape i v }

/-- One interpreter, two Getchar-on-EOF behaviors: `onEof old` is the
value stored when the input is exhausted.  One unit of fuel is spent per
executed operation; `none` means the fuel ran out. -/
def runIr (onEof : Nat → Nat) : Nat → List Ir → BfState → Option BfState
  | 0, _, _ => none
  | _ + 1, [], s => some s
  | fuel + 1, op :: rest, s =>
    match op with
    | .movePtr d => runIr onEof fuel rest { s with ptr := s.ptr + d }
    | .add v => runIr onEof fuel rest (tapeUpd s s.ptr (toByte (s.tape s.ptr + v)))
    | .assign v => runIr onEof fuel rest (tapeUpd s s.ptr (toByte v))
    | .putc => runIr onEof fuel rest { s with output := s.output ++ [s.tape s.ptr] }
    | .getc =>
      match s.input with
      | [] =>
        runIr onEof fuel rest
          { tapeUpd s s.ptr (onEof (s.tape s.ptr)) with eofHit := true }
      | b :: bs =>
        runIr onEof fuel rest { tapeUpd s s.ptr (b % 256) with input := bs }
    | .loop body =>
      if s.tape s.ptr = 0 then runIr onEof fuel rest s
      else runIr onEof fuel (body ++ op :: rest) s
    | .ifNZ body =>
      if s.tape s.ptr = 0 then runIr onEof fuel rest s
      else runIr onEof fuel (body ++ rest) s
    | .searchZero d =>
      if s.tape s.ptr = 0 then runIr onEof fuel rest s
      else runIr onEof fuel (op :: rest) { s with ptr := s.ptr + d }
    | .addVar off =>
      runIr onEof fuel rest
        (tapeUpd s (s.ptr + off) (toByte (s.tape (s.ptr + off) + s.tape s.ptr)))
    | .subVar off =>
      runIr onEof fuel rest
        (tapeUpd s (s.ptr + off) (toByte ((s.tape (s.ptr + off) : Int) - s.tape s.ptr)))
    | .addMulVar off k =>
      runIr onEof fuel rest
        (tapeUpd s (s.ptr + off) (toByte (s.tape (s.ptr + off) + s.tape s.ptr * k)))
    | .infLoop =>
      if s.tape s.ptr = 0 then runIr onEof fuel rest s else none
    | .breakPoint => runIr onEof fuel rest s

/-- Getchar-on-EOF of the spec's interpreter: leave the cell unchanged. -/
def irEof : Nat → Nat := fun old => old

/-- Getchar-on-EOF of the emitted C statement
`*p = (unsigned char) getchar();`: `getchar()` returns `EOF = -1` and the
cast stores 255. -/
def cEof : Nat → Nat := fun _ => 255

/-- Initial state: zeroed tape, pointer 0, given stdin. -/
def initState (input : List Nat) : BfState :=
  { tape := fun _ => 0, ptr := 0, input := input, output := [], eofHit := false }

/-- Stdout of a terminating run (`none` when the fuel ran out). -/
def runOut (onEof : Nat → Nat) (fuel : Nat) (prog : List Ir) (input : List Nat) :
    Option (List Nat) :=
  (runIr onEof fuel prog (initState input)).map BfState.output

/-! ### Getchar on EOF: the spec's interpreter against the emitted C -/

theorem runIr_eofHit_mono (f : Nat → Nat) :
    ∀ (fuel : Nat) (prog : List Ir) (s s' : BfState),
      runIr f fuel prog s = some s' → s.eofHit = true → s'.eofHit = true := by
  intro fuel
  induction fuel with
  | zero => intro prog s s' h; simp [runIr] at h
  | succ n ih =>
    intro prog s s' h he
    match prog with
    | [] =>
      simp only [runIr, Option.some_inj] at h
      rw [← h]; exact he
    | op :: rest =>
      cases op with
      | movePtr d =>
        simp only [runIr] at h
        exact ih _ _ _ h he
      | add v =>
        simp only [runIr] at h
        exact ih _ _ _ h (by simpa [tapeUpd] using he)
      | assign v =>
        simp only [runIr] at h
        exact ih _ _ _ h (by simpa [tapeUpd] using he)
      | putc =>
        simp only [runIr] at h
        exact ih _ _ _ h he
      | getc =>
        simp only [runIr] at h
        cases hin : s.input with
        | nil =>
          rw [hin] at h
          exact ih _ _ _ h (by simp [tapeUpd])
        | cons b bs =>
          rw [hin] at h
          exact ih _ _ _ h (by simpa [tapeUpd] using he)
      | loop body =>
        simp only [runIr] at h
        by_cases hz : s.tape s.ptr = 0 <;> simp [hz] at h <;> exact ih _ _ _ h he
      | ifNZ body =>
        simp only [runIr] at h
        by_cases hz : s.tape s.ptr = 0 <;> simp [hz] at h <;> exact ih _ _ _ h he
      | searchZero d =>
        simp only [runIr] at h
        by_cases hz : s.tape s.ptr = 0 <;> simp [hz] at h <;> exact ih _ _ _ h he
      | addVar off =>
        simp only [runIr] at h
        exact ih _ _ _ h (by simpa [tapeUpd] using he)
      | subVar off =>
        simp only [runIr] at h
        exact ih _ _ _ h (by simpa [tapeUpd] using he)
      | addMulVar off k =>
        simp only [runIr] at h
        exact ih _ _ _ h (by simpa [tapeUpd] using he)
      | infLoop =>
        simp only [runIr] at h
        by_cases hz : s.tape s.ptr = 0 <;> simp [hz] at h
        exact ih _ _ _ h he
      | breakPoint =>
        simp only [runIr] at h
        exact ih _ _ _ h he

/-- Two Getchar-on-EOF behaviors agree on every run that never meets an
exhausted input: the machines differ only in the value `onEof` stores. -/
theorem runIr_agree (f1 f2 : Nat → Nat) :
    ∀ (fuel : Nat) (prog : List Ir) (s s' : BfState),
      runIr f1 fuel prog s = some s' → s'.eofHit = false →
        runIr f2 fuel prog s = some s' := by
  intro fuel
  induction fuel with
  | zero => intro prog s s' h; simp [runIr] at h
  | succ n ih =>
    intro prog s s' h hne
    match prog with
    | [] => simpa only [runIr] using h
    | op :: rest =>
      cases op with
      | movePtr d =>
        simp only [runIr] at h ⊢
        exact ih _ _ _ h hne
      | add v =>
        simp only [runIr] at h ⊢
        exact ih _ _ _ h hne
      | assign v =>
        simp only [runIr] at h ⊢
        exact ih _ _ _ h hne
      | putc =>
        simp only [runIr] at h ⊢
        exact ih _ _ _ h hne
      | getc =>
        simp only [runIr] at h ⊢
        cases hin : s.input with
        | nil =>
          rw [hin] at h
          have : s'.eofHit = true :=
            runIr_eofHit_mono f1 n _ _ _ h (by simp [tapeUpd])
          rw [this] at hne
          exact absurd hne (by simp)
        | cons b bs =>
          rw [hin] at h
          exact ih _ _ _ h hne
      | loop body =>
        simp only [runIr] at h ⊢
        by_cases hz : s.tape s.ptr = 0 <;> simp [hz] at h ⊢ <;> exact ih _ _ _ h hne
      | ifNZ body =>
        simp only [runIr] at h ⊢
        by_cases hz : s.tape s.ptr = 0 <;> simp [hz] at h ⊢ <;> exact ih _ _ _ h hne
      | searchZero d =>
        simp only [runIr] at h ⊢
        by_cases hz : s.tape s.ptr = 0 <;> simp [hz] at h ⊢ <;> exact ih _ _ _ h hne
      | addVar off =>
        simp only [runIr] at h ⊢
        exact ih _ _ _ h hne
      | subVar off =>
        simp only [runIr] at h ⊢
        exact ih _ _ _ h hne
      | addMulVar off k =>
        simp only [runIr] at h ⊢
        exact ih _ _ _ h hne
      | infLoop =>
        simp only [runIr] at h ⊢
        by_cases hz : s.tape s.ptr = 0 <;> simp [hz] at h ⊢
        exact ih _ _ _ h hne
      | breakPoint =>
        simp only [runIr] at h ⊢
        exact ih _ _ _ h hne

/-- Claim C1, counterexample: for the IR program `Getchar; Putchar` and an
empty stdin, the spec's interpreter (EOF leaves the cell unchanged) prints
byte 0, while the machine realising the emitted C statement
`*p = (unsigned char) getchar();` prints byte 255 — the emitted Getchar
statement does not realise the IR semantics, and the stdouts differ. -/
theorem c1_counterexample_getchar_eof :
    runOut irEof 10 [Ir.getc, Ir.putc] [] = some [0] ∧
      runOut cEof 10 [Ir.getc, Ir.putc] [] = some [255] ∧
      runOut cEof 10 [Ir.getc, Ir.putc] [] ≠ runOut irEof 10 [Ir.getc, Ir.putc] [] ∧
      (emitOpC COp.getc headerCState).out
        = headerCState.out ++ (indentText 1 ++ "*p = (unsigned char) getchar();\n") := by
  refine ⟨by decide, by decide, by decide, rfl⟩

/-- Claim C1, amended: for every IR program and stdin on which the
interpreter's run terminates without any Getchar meeting an exhausted
input, the machine realising the C backend's statements produces the very
same final state, stdout included; when a Getchar does meet EOF, the
emitted statement `*p = (unsigned char) getchar();` stores 255 in the
cell instead of leaving it unchanged, and the stdouts can differ. -/
theorem c1_no_eof_agreement (fuel : Nat) (prog : List Ir) (input : List Nat)
    (s' : BfState) (h : runIr irEof fuel prog (initState input) = some s')
    (hne : s'.eofHit = false) :
    runIr cEof fuel prog (initState input) = some s' ∧
      runOut cEof fuel prog input = runOut irEof fuel prog input := by
  have hagree := runIr_agree irEof cEof fuel prog (initState input) s' h hne
  refine ⟨hagree, ?_⟩
  unfold runOut
  rw [h, hagree]

/-- Witness for `c1_no_eof_agreement`: the program `Getchar; Putchar` on
the one-byte stdin `[65]` echoes the byte under both machines. -/
theorem c1_no_eof_agreement_witness :
    runIr cEof 10 [Ir.getc, Ir.putc] (initState [65])
        = runIr irEof 10 [Ir.getc, Ir.putc] (initState [65]) ∧
      runOut cEof 10 [Ir.getc, Ir.putc] [65] = runOut irEof 10 [Ir.getc, Ir.putc] [65] := by
  rcases hh : runIr irEof 10 [Ir.getc, Ir.putc] (initState [65]) with _ | s'
  · have hs : (runIr irEof 10 [Ir.getc, Ir.putc] (initState [65])).isSome = true := by
      decide
    rw [hh] at hs
    exact absurd hs (by simp)
  · have hf : s'.eofHit = false := by
      have hmap : (runIr irEof 10 [Ir.getc, Ir.putc] (initState [65])).map BfState.eofHit
          = some false := by decide
      rw [hh] at hmap
      simpa using hmap
    obtain ⟨h1, h2⟩ := c1_no_eof_agreement 10 [Ir.getc, Ir.putc] [65] s' hh hf
    exact ⟨h1, h2⟩

/-! ## ELF x86 binary backend (GeneratorElfX86)

The sink is a byte list; `tellp()` is its length, a `seekp`/`write`
backpatch is `writeAt`.  `write` of a `u8` array appends its bytes, of an
`int`/`u32` the four little-endian bytes of the value reduced modulo 2^32
(`BinaryGenerator`, whose word emission is little-endian per the spec's
endianness rule, is not among the given sources).  The standard ELF
constants come from `util/elfsubset.h` (also not among the sources):
PT_LOAD = 1, PF_X/W/R = 1/2/4, SHT_NULL/PROGBITS/STRTAB/NOBITS = 0/1/3/8,
SHF_WRITE/ALLOC/EXECINSTR = 1/2/4, ET_EXEC = 2, EM_386 = 3,
ELFOSABI_LINUX = 3, and the 52/32/40-byte Ehdr/Phdr/Shdr layouts. -/

/-- Little-endian bytes of a 32-bit value (`write` of an `int` or `u32`,
two's complement for negatives). -/
def le32 (v : Int) : List Nat :=
  let w := (v % 4294967296).toNat
  [w % 256, w / 256 % 256, w / 65536 % 256, w / 16777216 % 256]

/-- Little-endian bytes of a 16-bit field. -/
def le16 (v : Nat) : List Nat := [v % 256, v / 256 % 256]

/-- `GeneratorElfX86::kTextAddr`. -/
def kTextAddr : Nat := 0x04048000

/-- `GeneratorElfX86::kBssAddr`. -/
def kBssAddr : Nat := 0x04248000

/-- `kHeaderSize = sizeof(Elf32_Ehdr) + 2 * sizeof(Elf32_Phdr)`. -/
def kHeaderSize : Nat := 116

/-- `kFooterSize = 4 * sizeof(Elf32_Shdr)`. -/
def kFooterSize : Nat := 160

/-- Byte sink and stack of pending LoopStart/IfStart offsets. -/
structure ElfState where
  buf : List Nat
  loopStack : List Nat
deriving DecidableEq

/-- Seek to `pos` and overwrite with `bs` (callers keep
`pos + bs.length ≤ buf.length`, so the length is preserved). -/
def writeAt (buf : List Nat) (pos : Nat) (bs : List Nat) : List Nat :=
  buf.take pos ++ bs ++ buf.drop (pos + bs.length)

/-- `emitHeaderImpl`: 116 placeholder bytes for the ELF header (written
for real by the footer; the source writes uninitialised structs here,
modelled as zeros) and the first instruction `mov ecx, kBssAddr`. -/
def emitHeaderElf : ElfState :=
  ⟨List.replicate 116 0 ++ 0xb9 :: le32 kBssAddr, []⟩

/-- Machine code of `emitPutcharImpl`: `sys_write(1, ecx, 1)`. -/
def putcharBytes : List Nat :=
  [0xb8] ++ le32 4 ++ [0xba] ++ le32 1 ++ [0xbb] ++ le32 1 ++ [0xcd, 0x80]

/-- Machine code of `emitGetcharImpl`: `sys_read(0, ecx, 1)`. -/
def getcharBytes : List Nat :=
  [0xb8] ++ le32 3 ++ [0xba] ++ le32 1 ++ [0xbb] ++ le32 0 ++ [0xcd, 0x80]

/-- Machine code of `emitMovePointerImpl`. -/
def movePtrBytes (op1 : Int) : List Nat :=
  if op1 > 0 then
    if op1 = 1 then [0x41] else [0x81, 0xc1] ++ le32 op1
  else
    if op1 = -1 then [0x49] else [0x81, 0xe9] ++ le32 (-op1)

/-- Machine code of `emitAddImpl`. -/
def addBytes (op1 : Int) : List Nat :=
  if op1 > 0 then
    if op1 = 1 then [0xfe, 0x01] else [0x80, 0x01, toByte op1]
  else
    if op1 = -1 then [0xfe, 0x09] else [0x80, 0x29, toByte (-op1)]

/-- Machine code of `emitAssignImpl`: `mov byte ptr [ecx], op1`. -/
def assignBytes (op1 : Int) : List Nat := [0xc6, 0x01, toByte op1]

/-- Second instruction of `emitAddVarImpl`:
`add byte ptr [ecx + op1], al` with a byte or dword offset. -/
def addVarTailBytes (op1 : Int) : List Nat :=
  if op1 < -128 ∨ 127 < op1 then [0x00, 0x81] ++ le32 op1
  else [0x00, 0x41, toByte op1]

/-- Second instruction of `emitSubVarImpl`. -/
def subVarTailBytes (op1 : Int) : List Nat :=
  if op1 < -128 ∨ 127 < op1 then [0x28, 0x81] ++ le32 op1
  else [0x28, 0x41, toByte op1]

/-- Machine code of `emitAddVarImpl`. -/
def addVarBytes (op1 : Int) : List Nat := [0x8a, 0x01] ++ addVarTailBytes op1

/-- Machine code of `emitSubVarImpl`. -/
def subVarBytes (op1 : Int) : List Nat := [0x8a, 0x01] ++ subVarTailBytes op1

/-- Machine code of `emitAddCMulVarImpl`: load `|op2|`, multiply by the
cell, then add or subtract at offset `op1`. -/
def addCMulVarBytes (op1 op2 : Int) : List Nat :=
  if op2 > 0 then [0xb0, toByte op2, 0xf6, 0x21] ++ addVarTailBytes op1
  else [0xb0, toByte (-op2), 0xf6, 0x21] ++ subVarTailBytes op1

/-- Machine code of `emitLoopStartImpl`: `cmp byte ptr [ecx], 0` and a
`je` with a placeholder 32-bit displacement. -/
def loopStartBytes : List Nat :=
  [0x80, 0x39, 0x00, 0x0f, 0x84] ++ le32 0

/-- `emitLoopStartImpl`: push `tellp()` and emit the compare/branch. -/
def emitLoopStartElf (st : ElfState) : ElfState :=
  ⟨st.buf ++ loopStartBytes, st.buf.length :: st.loopStack⟩

/-- IfStart hook of the binary backend.  Modelled from the spec:
`emitIfImpl` is inherited from a base class that is not among the given
sources; per spec §4.4 the binary backend emits at IfStart a compare-zero
and a forward conditional branch with a placeholder 32-bit displacement
and pushes the current sink offset, exactly as at LoopStart. -/
def emitIfElf (st : ElfState) : ElfState := emitLoopStartElf st

/-- `emitLoopEndImpl`: a short (`0xeb`) or near (`0xe9`) backward jump,
then the backpatch of the placeholder at the pushed offset; `none` when
the loop stack is empty or the patch would fall outside the sink, which
cannot happen in a traversal of a well-paired listing. -/
def emitLoopEndElf (st : ElfState) : Option ElfState :=
  match st.loopStack with
  | [] => none
  | pos :: rest =>
    let offset : Int := (pos : Int) - st.buf.length - 1
    let buf2 :=
      if offset - 1 < -128 then st.buf ++ 0xe9 :: le32 (offset - 4)
      else st.buf ++ [0xeb, toByte (offset - 1)]
    if pos + 9 ≤ buf2.length then
      some ⟨writeAt buf2 (pos + 5) (le32 ((buf2.length : Int) - (pos + 5) - 4)), rest⟩
    else none

/-- `emitEndIfImpl`: only the backpatch of the placeholder. -/
def emitEndIfElf (st : ElfState) : Option ElfState :=
  match st.loopStack with
  | [] => none
  | pos :: rest =>
    if pos + 9 ≤ st.buf.length then
      some ⟨writeAt st.buf (pos + 5) (le32 ((st.buf.length : Int) - (pos + 5) - 4)), rest⟩
    else none

/-- `emitInfLoopImpl`: `emitIfImpl()`, a `jmp` to itself
(`0xeb 0xfe`, displacement `(u8)(-2)`), `emitEndIfImpl()`. -/
def emitInfLoopElf (st : ElfState) : Option ElfState :=
  let st1 := emitIfElf st
  emitEndIfElf ⟨st1.buf ++ [0xeb, 0xfe], st1.loopStack⟩

/-- The flat IR operation alphabet of the ELF x86 backend (the hooks
`GeneratorElfX86` itself defines; the SearchZero and BreakPoint hooks of
this backend live in base classes that are not among the given sources). -/
inductive ElfOp where
  | movePtr (d : Int)
  | add (v : Int)
  | putc
  | getc
  | loopStart
  | loopEnd
  | ifStart
  | ifEnd
  | assign (v : Int)
  | addVar (o : Int)
  | subVar (o : Int)
  | addCMulVar (o : Int) (k : Int)
  | infLoop
deriving DecidableEq

/-- One hook invocation of the ELF backend. -/
def emitOpElf (op : ElfOp) (st : ElfState) : Option ElfState :=
  match op with
  | .movePtr d => some ⟨st.buf ++ movePtrBytes d, st.loopStack⟩
  | .add v => some ⟨st.buf ++ addBytes v, st.loopStack⟩
  | .putc => some ⟨st.buf ++ putcharBytes, st.loopStack⟩
  | .getc => some ⟨st.buf ++ getcharBytes, st.loopStack⟩
  | .loopStart => some (emitLoopStartElf st)
  | .loopEnd => emitLoopEndElf st
  | .ifStart => some (emitIfElf st)
  | .ifEnd => emitEndIfElf st
  | .assign v => some ⟨st.buf ++ assignBytes v, st.loopStack⟩
  | .addVar o => some ⟨st.buf ++ addVarBytes o, st.loopStack⟩
  | .subVar o => some ⟨st.buf ++ subVarBytes o, st.loopStack⟩
  | .addCMulVar o k => some ⟨st.buf ++ addCMulVarBytes o k, st.loopStack⟩
  | .infLoop => emitInfLoopElf st

/-- Traversal of the op listing. -/
def emitOpsElf (ops : List ElfOp) (st : ElfState) : Option ElfState :=
  ops.foldlM (fun s op => emitOpElf op s) st

/-- Trailing code of `emitFooterImpl`: emit `'\n'` (`emitAssignImpl` and
`emitPutcharImpl`) and `sys_exit(0)`. -/
def newlineExitBytes : List Nat :=
  assignBytes 10 ++ putcharBytes
    ++ [0xb8] ++ le32 1 ++ [0xbb] ++ le32 0 ++ [0xcd, 0x80]

/-- The 22 bytes of `kShStrTbl` (`"\0.text\0.shstrtbl\0.bss"` and its
terminating NUL). -/
def shStrTblBytes : List Nat :=
  (("\x00.text\x00.shstrtbl\x00.bss\x00").data.map Char.toNat)

/-- First (null) section header. -/
def shdr0Bytes : List Nat :=
  le32 0 ++ le32 0 ++ le32 0 ++ le32 0 ++ le32 0 ++ le32 0 ++ le32 0 ++ le32 0
    ++ le32 0 ++ le32 0

/-- Second section header (`.shstrtbl`): SHT_STRTAB at
`kHeaderSize + codeSize`, 22 bytes. -/
def shdr1Bytes (codeSize : Nat) : List Nat :=
  le32 7 ++ le32 3 ++ le32 0 ++ le32 0 ++ le32 (kHeaderSize + codeSize) ++ le32 22
    ++ le32 0 ++ le32 0 ++ le32 1 ++ le32 0

/-- Third section header (`.text`): SHT_PROGBITS, SHF_EXECINSTR|SHF_ALLOC,
loaded at `kTextAddr + kHeaderSize`. -/
def shdr2Bytes (codeSize : Nat) : List Nat :=
  le32 1 ++ le32 1 ++ le32 6 ++ le32 (kTextAddr + kHeaderSize) ++ le32 kHeaderSize
    ++ le32 codeSize ++ le32 0 ++ le32 0 ++ le32 4 ++ le32 0

/-- Fourth section header (`.bss`): SHT_NOBITS, SHF_ALLOC|SHF_WRITE,
65536 cells at `kBssAddr`. -/
def shdr3Bytes : List Nat :=
  le32 17 ++ le32 8 ++ le32 3 ++ le32 kBssAddr ++ le32 0x00001000 ++ le32 0x00010000
    ++ le32 0 ++ le32 0 ++ le32 0x10 ++ le32 0

/-- The Elf32_Ehdr the footer writes at offset 0 (the source leaves
`e_ident[10..15]` uninitialised; modelled as zeros). -/
def ehdrBytes (codeSize : Nat) : List Nat :=
  [0x7f, 0x45, 0x4c, 0x46, 1, 1, 1, 3, 0, 0, 0, 0, 0, 0, 0, 0]
    ++ le16 2                                      -- e_type = ET_EXEC
    ++ le16 3                                      -- e_machine = EM_386
    ++ le32 1                                      -- e_version
    ++ le32 (kTextAddr + kHeaderSize)              -- e_entry
    ++ le32 52                                     -- e_phoff
    ++ le32 (kHeaderSize + 22 + codeSize)          -- e_shoff
    ++ le32 0                                      -- e_flags
    ++ le16 52 ++ le16 32 ++ le16 2 ++ le16 40 ++ le16 4 ++ le16 1

/-- First program header: PT_LOAD, PF_R|PF_X, code at `kTextAddr`. -/
def phdr1Bytes (codeSize : Nat) : List Nat :=
  le32 1 ++ le32 0 ++ le32 kTextAddr ++ le32 kTextAddr
    ++ le32 (kHeaderSize + 22 + kFooterSize + codeSize)
    ++ le32 (kHeaderSize + 22 + kFooterSize + codeSize)
    ++ le32 5 ++ le32 0x100

/-- Second program header: PT_LOAD, PF_R|PF_W, 65536-byte tape at
`kBssAddr`. -/
def phdr2Bytes : List Nat :=
  le32 1 ++ le32 0x00001000 ++ le32 kBssAddr ++ le32 kBssAddr
    ++ le32 0 ++ le32 0x00010000 ++ le32 6 ++ le32 0x00200000

/-- `emitFooterImpl`: append the newline/exit code, compute
`codeSize = tellp() - kHeaderSize`, append the string table and the four
section headers, then seek to 0 and write the real ELF header and the two
program headers. -/
def emitFooterElf (st : ElfState) : Option ElfState :=
  let buf1 := st.buf ++ newlineExitBytes
  let codeSize := buf1.length - kHeaderSize
  let buf2 := buf1 ++ shStrTblBytes ++ shdr0Bytes ++ shdr1Bytes codeSize
    ++ shdr2Bytes codeSize ++ shdr3Bytes
  if kHeaderSize ≤ buf2.length then
    some ⟨writeAt buf2 0 (ehdrBytes codeSize ++ phdr1Bytes codeSize ++ phdr2Bytes),
      st.loopStack⟩
  else none

/-- Complete byte stream emitted for an op listing: header, traversal,
footer. -/
def emitProgramElf (ops : List ElfOp) : Option (List Nat) :=
  (emitOpsElf ops emitHeaderElf).bind fun st => (emitFooterElf st).map ElfState.buf

/-! ### Sink lemmas -/

theorem writeAt_length {buf bs : List Nat} {pos : Nat}
    (h : pos + bs.length ≤ buf.length) :
    (writeAt buf pos bs).length = buf.length := by
  simp [writeAt]
  omega

theorem writeAt_take_of_le {buf bs : List Nat} {pos n : Nat} (h : n ≤ pos)
    (hp : pos ≤ buf.length) :
    (writeAt buf pos bs).take n = buf.take n := by
  unfold writeAt
  rw [List.append_assoc, List.take_append_of_le_length (by simp; omega),
    List.take_take]
  congr 1
  omega

theorem writeAt_drop_of_ge {buf bs : List Nat} {pos n : Nat}
    (h : pos + bs.length ≤ n) (hlen : pos + bs.length ≤ buf.length) :
    (writeAt buf pos bs).drop n = buf.drop n := by
  unfold writeAt
  have h1 : (buf.take pos).length = pos := by simp; omega
  have h2 : n = (buf.take pos ++ bs).length + (n - pos - bs.length) := by
    simp; omega
  rw [List.append_assoc, ← List.append_assoc, h2, List.drop_append,
    List.drop_drop]
  congr 1
  omega

theorem writeAt_slice {buf bs : List Nat} {pos : Nat}
    (h : pos + bs.length ≤ buf.length) :
    ((writeAt buf pos bs).drop pos).take bs.length = bs := by
  unfold writeAt
  have h1 : (buf.take pos).length = pos := by simp; omega
  rw [List.append_assoc, List.drop_left' h1, List.take_left]

/-! ### Branch decoding -/

/-- Sign extension of an 8-bit displacement byte. -/
def sext8 (b : Nat) : Int := if b < 128 then (b : Int) else (b : Int) - 256

/-- Two's-complement reading of four little-endian displacement bytes. -/
def dec32 (bs : List Nat) : Int :=
  match bs with
  | [b0, b1, b2, b3] =>
    let w := b0 + 256 * b1 + 65536 * b2 + 16777216 * b3
    if w < 2147483648 then (w : Int) else (w : Int) - 4294967296
  | _ => 0

theorem sext8_toByte {d : Int} (h1 : -128 ≤ d) (h2 : d < 128) :
    sext8 (toByte d) = d := by
  unfold sext8 toByte
  split <;> omega

theorem dec32_le32 {v : Int} (h1 : -2147483648 ≤ v) (h2 : v < 2147483648) :
    dec32 (le32 v) = v := by
  unfold dec32 le32
  dsimp only
  split <;> omega

/-- Claim C2: at LoopEnd (traversing a well-paired listing, so the top of
the loop stack is the offset `pos` of the matching LoopStart and the 9
bytes it emitted lie in the sink) the backend emits a backward jump —
short (`0xeb`, 8-bit displacement) exactly when the negative displacement
fits in 8 bits, near (`0xe9`, 32-bit displacement) otherwise, in both
forms decoding to the LoopStart offset `pos` — and then overwrites the
placeholder 32 bits at `pos + 5` with the forward distance from the
instruction after the `je` (at `pos + 9`) to the instruction after the
back-branch, i.e. the patched displacement decodes to the end of the
sink. -/
theorem c2_loop_end_backpatch (st : ElfState) (pos : Nat) (rest : List Nat)
    (hstack : st.loopStack = pos :: rest)
    (hpos : pos + 9 ≤ st.buf.length)
    (hsize : st.buf.length + 5 ≤ 2147483648) :
    ∃ st', emitLoopEndElf st = some st' ∧ st'.loopStack = rest ∧
      st'.buf.length
        = st.buf.length + (if -128 ≤ (pos : Int) - (st.buf.length + 2) then 2 else 5) ∧
      (-128 ≤ (pos : Int) - (st.buf.length + 2) →
        st'.buf.drop st.buf.length
            = [0xeb, toByte ((pos : Int) - (st.buf.length + 2))] ∧
          (st.buf.length + 2 : Int)
              + sext8 (toByte ((pos : Int) - (st.buf.length + 2))) = pos) ∧
      ((pos : Int) - (st.buf.length + 2) < -128 →
        st'.buf.drop st.buf.length
            = 0xe9 :: le32 ((pos : Int) - (st.buf.length + 5)) ∧
          (st.buf.length + 5 : Int)
              + dec32 (le32 ((pos : Int) - (st.buf.length + 5))) = pos) ∧
      (st'.buf.drop (pos + 5)).take 4 = le32 ((st'.buf.length : Int) - (pos + 9)) ∧
      ((pos : Int) + 9) + dec32 ((st'.buf.drop (pos + 5)).take 4) = st'.buf.length := by
  unfold emitLoopEndElf
  rw [hstack]
  dsimp only
  split
  case isTrue hc =>
    -- near jump
    split
    case isFalse hg => exact absurd (by simp [le32]; omega) hg
    case isTrue hg =>
      set jmpb : List Nat := 0xe9 :: le32 ((pos : Int) - ↑st.buf.length - 1 - 4) with hjmp
      have hB : (st.buf ++ jmpb).length = st.buf.length + 5 := by simp [hjmp, le32]
      set patch : List Nat :=
        le32 (((st.buf ++ jmpb).length : Int) - (↑pos + 5) - 4) with hpatch
      have hP : patch.length = 4 := by simp [hpatch, le32]
      have hwlen : (writeAt (st.buf ++ jmpb) (pos + 5) patch).length
          = st.buf.length + 5 := by
        rw [writeAt_length (by rw [hP, hB]; omega), hB]
      refine ⟨_, rfl, rfl, ?_, ?_, ?_, ?_, ?_⟩
      · rw [hwlen, if_neg (by omega)]
      · exact fun h => absurd h (by omega)
      · intro _
        constructor
        · rw [writeAt_drop_of_ge (by rw [hP]; omega) (by rw [hP, hB]; omega),
            List.drop_left]
          rw [hjmp]
          congr 2
          ring
        · rw [dec32_le32 (by omega) (by omega)]
          omega
      · rw [hwlen, ← hP, writeAt_slice (by rw [hP, hB]; omega), hpatch, hB]
        congr 1
        push_cast
        ring
      · rw [hwlen, ← hP, writeAt_slice (by rw [hP, hB]; omega), hpatch, hB]
        have harg : ((st.buf.length + 5 : Nat) : Int) - (↑pos + 5) - 4
            = ((st.buf.length : Int) + 5 - (pos + 9)) := by push_cast; ring
        rw [harg, dec32_le32 (by omega) (by omega)]
        omega
  case isFalse hc =>
    -- short jump
    split
    case isFalse hg => exact absurd (by simp; omega) hg
    case isTrue hg =>
      set jmpb : List Nat := [0xeb, toByte ((pos : Int) - ↑st.buf.length - 1 - 1)]
        with hjmp
      have hB : (st.buf ++ jmpb).length = st.buf.length + 2 := by simp [hjmp]
      set patch : List Nat :=
        le32 (((st.buf ++ jmpb).length : Int) - (↑pos + 5) - 4) with hpatch
      have hP : patch.length = 4 := by simp [hpatch, le32]
      have hwlen : (writeAt (st.buf ++ jmpb) (pos + 5) patch).length
          = st.buf.length + 2 := by
        rw [writeAt_length (by rw [hP, hB]; omega), hB]
      refine ⟨_, rfl, rfl, ?_, ?_, ?_, ?_, ?_⟩
      · rw [hwlen, if_pos (by omega)]
      · intro _
        constructor
        · rw [writeAt_drop_of_ge (by rw [hP]; omega) (by rw [hP, hB]; omega),
            List.drop_left]
          rw [hjmp]
          congr 3
          ring
        · rw [sext8_toByte (by omega) (by omega)]
          omega
      · exact fun h => absurd h (by omega)
      · rw [hwlen, ← hP, writeAt_slice (by rw [hP, hB]; omega), hpatch, hB]
        congr 1
        push_cast
        ring
      · rw [hwlen, ← hP, writeAt_slice (by rw [hP, hB]; omega), hpatch, hB]
        have harg : ((st.buf.length + 2 : Nat) : Int) - (↑pos + 5) - 4
            = ((st.buf.length : Int) + 2 - (pos + 9)) := by push_cast; ring
        rw [harg, dec32_le32 (by omega) (by omega)]
        omega

/-! ### Layout of the emitted ELF file -/

theorem slice_eq_of_take_eq {l p : List Nat} {n m k : Nat} (h : l.take n = p)
    (hmk : m + k ≤ n) :
    (l.drop m).take k = (p.drop m).take k := by
  have h1 : ((l.take n).drop m).take k = (l.drop m).take k := by
    rw [List.drop_take, List.take_take, min_eq_left (by omega)]
  rw [← h1, h]

theorem ehdrBytes_length (c : Nat) : (ehdrBytes c).length = 52 := by
  simp [ehdrBytes, le32, le16]

theorem phdr1Bytes_length (c : Nat) : (phdr1Bytes c).length = 32 := by
  simp [phdr1Bytes, le32]

theorem phdr2Bytes_length : phdr2Bytes.length = 32 := by decide

theorem newlineExitBytes_length : newlineExitBytes.length = 32 := by decide

theorem shStrTblBytes_length : shStrTblBytes.length = 22 := by decide

theorem shdr0Bytes_length : shdr0Bytes.length = 40 := by decide

theorem shdr1Bytes_length (c : Nat) : (shdr1Bytes c).length = 40 := by
  simp [shdr1Bytes, le32]

theorem shdr2Bytes_length (c : Nat) : (shdr2Bytes c).length = 40 := by
  simp [shdr2Bytes, le32]

theorem shdr3Bytes_length : shdr3Bytes.length = 40 := by decide

theorem footerTail_length (c : Nat) :
    (shStrTblBytes ++ shdr0Bytes ++ shdr1Bytes c ++ shdr2Bytes c ++ shdr3Bytes).length
      = 182 := by
  simp only [List.length_append, shStrTblBytes_length, shdr0Bytes_length,
    shdr1Bytes_length, shdr2Bytes_length, shdr3Bytes_length]

/-- Traversal invariant of the ELF backend: the 121 header bytes written
by `emitHeaderImpl` stay in place, and every pending branch site points at
or after the first code byte. -/
def ElfInv (st : ElfState) : Prop :=
  121 ≤ st.buf.length ∧ st.buf.take 121 = emitHeaderElf.buf ∧
    ∀ p ∈ st.loopStack, 116 ≤ p

theorem emitHeaderElf_buf_length : emitHeaderElf.buf.length = 121 := by
  simp [emitHeaderElf, le32]

theorem elfInv_header : ElfInv emitHeaderElf := by
  refine ⟨?_, ?_, ?_⟩
  · rw [emitHeaderElf_buf_length]
  · exact List.take_of_length_le (by rw [emitHeaderElf_buf_length])
  · intro p hp
    simp [emitHeaderElf] at hp

theorem elfInv_append {st : ElfState} (xs : List Nat) (h : ElfInv st) :
    ElfInv ⟨st.buf ++ xs, st.loopStack⟩ := by
  obtain ⟨h1, h2, h3⟩ := h
  refine ⟨by simp; omega, ?_, h3⟩
  rw [List.take_append_of_le_length (by omega)]
  exact h2

theorem elfInv_loopStart {st : ElfState} (h : ElfInv st) :
    ElfInv (emitLoopStartElf st) := by
  obtain ⟨h1, h2, h3⟩ := h
  unfold emitLoopStartElf
  refine ⟨by simp [loopStartBytes, le32]; omega, ?_, ?_⟩
  · rw [List.take_append_of_le_length (by omega)]
    exact h2
  · intro p hp
    rcases List.mem_cons.mp hp with hp | hp
    · omega
    · exact h3 p hp

theorem elfInv_endIf {st st' : ElfState} (h : emitEndIfElf st = some st')
    (hinv : ElfInv st) : ElfInv st' := by
  obtain ⟨h1, h2, h3⟩ := hinv
  unfold emitEndIfElf at h
  cases hstack : st.loopStack with
  | nil => rw [hstack] at h; exact absurd h (by simp)
  | cons pos rest =>
    rw [hstack] at h
    dsimp only at h
    by_cases hg : pos + 9 ≤ st.buf.length
    · rw [if_pos hg] at h
      have hpos : 116 ≤ pos := h3 pos (by rw [hstack]; exact List.mem_cons_self _ _)
      have hplen : (le32 ((st.buf.length : Int) - (↑pos + 5) - 4)).length = 4 := by
        simp [le32]
      cases h
      refine ⟨?_, ?_, ?_⟩
      · rw [writeAt_length (by omega)]
        exact h1
      · rw [writeAt_take_of_le (by omega) (by omega)]
        exact h2
      · intro p hp
        exact h3 p (by rw [hstack]; exact List.mem_cons_of_mem _ hp)
    · rw [if_neg hg] at h
      exact absurd h (by simp)

theorem elfInv_loopEnd {st st' : ElfState} (h : emitLoopEndElf st = some st')
    (hinv : ElfInv st) : ElfInv st' := by
  obtain ⟨h1, h2, h3⟩ := hinv
  unfold emitLoopEndElf at h
  cases hstack : st.loopStack with
  | nil => rw [hstack] at h; exact absurd h (by simp)
  | cons pos rest =>
    rw [hstack] at h
    dsimp only at h
    have hpos : 116 ≤ pos := h3 pos (by rw [hstack]; exact List.mem_cons_self _ _)
    split at h
    all_goals
      split at h
    case isFalse => exact absurd h (by simp)
    case isFalse => exact absurd h (by simp)
    all_goals
      rename_i hg
    all_goals
      cases h
    all_goals
      refine ⟨?_, ?_, ?_⟩
    case _ =>
      rw [writeAt_length (by simp [le32] at hg ⊢; omega)]
      simp [le32] at hg ⊢
      omega
    case _ =>
      rw [writeAt_take_of_le (by omega) (by simp [le32] at hg ⊢; omega),
        List.take_append_of_le_length (by omega)]
      exact h2
    case _ =>
      intro p hp
      exact h3 p (by rw [hstack]; exact List.mem_cons_of_mem _ hp)
    case _ =>
      rw [writeAt_length (by simp [le32] at hg ⊢; omega)]
      simp [le32] at hg ⊢
      omega
    case _ =>
      rw [writeAt_take_of_le (by omega) (by simp [le32] at hg ⊢; omega),
        List.take_append_of_le_length (by omega)]
      exact h2
    case _ =>
      intro p hp
      exact h3 p (by rw [hstack]; exact List.mem_cons_of_mem _ hp)

theorem elfInv_op {op : ElfOp} {st st' : ElfState} (h : emitOpElf op st = some st')
    (hinv : ElfInv st) : ElfInv st' := by
  cases op with
  | movePtr d => cases h; exact elfInv_append _ hinv
  | add v => cases h; exact elfInv_append _ hinv
  | putc => cases h; exact elfInv_append _ hinv
  | getc => cases h; exact elfInv_append _ hinv
  | loopStart => cases h; exact elfInv_loopStart hinv
  | loopEnd => exact elfInv_loopEnd h hinv
  | ifStart => cases h; exact elfInv_loopStart hinv
  | ifEnd => exact elfInv_endIf h hinv
  | assign v => cases h; exact elfInv_append _ hinv
  | addVar o => cases h; exact elfInv_append _ hinv
  | subVar o => cases h; exact elfInv_append _ hinv
  | addCMulVar o k => cases h; exact elfInv_append _ hinv
  | infLoop =>
    have hmid : ElfInv ⟨(emitIfElf st).buf ++ [0xeb, 0xfe], (emitIfElf st).loopStack⟩ := by
      have h1 := elfInv_loopStart hinv
      exact elfInv_append _ h1
    dsimp only [emitOpElf, emitInfLoopElf] at h
    exact elfInv_endIf h hmid

theorem elfInv_ops {ops : List ElfOp} :
    ∀ {st st' : ElfState}, emitOpsElf ops st = some st' → ElfInv st → ElfInv st' := by
  induction ops with
  | nil =>
    intro st st' h hinv
    cases h
    exact hinv
  | cons op rest ih =>
    intro st st' h hinv
    rw [show emitOpsElf (op :: rest) st
        = (emitOpElf op st).bind (fun s1 => emitOpsElf rest s1) from rfl] at h
    cases hop : emitOpElf op st with
    | none => rw [hop] at h; exact absurd h (by simp)
    | some s1 =>
      rw [hop] at h
      exact ih h (elfInv_op hop hinv)

/-- Layout of every successfully emitted ELF file: real header over the
placeholder, code from offset 116, string table and section headers at
the end. -/
theorem elf_layout {ops : List ElfOp} {file : List Nat}
    (h : emitProgramElf ops = some file) :
    ∃ codeSize,
      file.length = kHeaderSize + codeSize + 22 + kFooterSize ∧
      file.take 52 = ehdrBytes codeSize ∧
      (file.drop 52).take 32 = phdr1Bytes codeSize ∧
      (file.drop 84).take 32 = phdr2Bytes ∧
      (file.drop 116).take 5 = 0xb9 :: le32 kBssAddr ∧
      file.drop (116 + codeSize)
        = shStrTblBytes ++ shdr0Bytes ++ shdr1Bytes codeSize ++ shdr2Bytes codeSize
            ++ shdr3Bytes := by
  unfold emitProgramElf at h
  cases hops : emitOpsElf ops emitHeaderElf with
  | none => rw [hops] at h; exact absurd h (by simp)
  | some stOps =>
    rw [hops] at h
    have hinv : ElfInv stOps := elfInv_ops hops elfInv_header
    obtain ⟨hlen, htake, _⟩ := hinv
    unfold emitFooterElf at h
    simp only [Option.some_bind] at h
    rw [if_pos (by
      simp only [List.length_append, newlineExitBytes_length, shStrTblBytes_length,
        shdr0Bytes_length, shdr1Bytes_length, shdr2Bytes_length, shdr3Bytes_length,
        kHeaderSize]
      omega)] at h
    simp only [Option.map_some', Option.some_inj] at h
    set c := (stOps.buf ++ newlineExitBytes).length - kHeaderSize with hc
    have hbuf1len : (stOps.buf ++ newlineExitBytes).length = stOps.buf.length + 32 := by
      simp [newlineExitBytes_length]
    have hcval : c = stOps.buf.length + 32 - 116 := by rw [hc, hbuf1len]; rfl
    set hdr := ehdrBytes c ++ phdr1Bytes c ++ phdr2Bytes with hhdr
    have hhdrlen : hdr.length = 116 := by
      simp [hhdr, ehdrBytes_length, phdr1Bytes_length, phdr2Bytes_length]
    set buf2 := stOps.buf ++ newlineExitBytes ++ shStrTblBytes ++ shdr0Bytes
      ++ shdr1Bytes c ++ shdr2Bytes c ++ shdr3Bytes with hbuf2
    set tail := shStrTblBytes ++ shdr0Bytes ++ shdr1Bytes c ++ shdr2Bytes c
      ++ shdr3Bytes with htail
    have htaillen : tail.length = 182 := footerTail_length c
    have hassoc : buf2 = (stOps.buf ++ newlineExitBytes) ++ tail := by
      rw [hbuf2, htail]
      simp only [List.append_assoc]
    have hbuf2len : buf2.length = stOps.buf.length + 32 + 182 := by
      rw [hassoc]
      simp only [List.length_append, newlineExitBytes_length, htaillen]
    have hfile : file = hdr ++ buf2.drop 116 := by
      rw [← h]
      unfold writeAt
      simp only [List.take_zero, List.nil_append, hhdrlen, Nat.zero_add]
    have hdroplen : (buf2.drop 116).length = c + 182 := by
      simp only [List.length_drop, hbuf2len]
      omega
    have hbuf2take : buf2.take 121 = emitHeaderElf.buf := by
      rw [hassoc,
        List.take_append_of_le_length (by rw [hbuf1len]; omega),
        List.take_append_of_le_length (by omega), htake]
    refine ⟨c, ?_, ?_, ?_, ?_, ?_, ?_⟩
    · rw [hfile]
      simp only [List.length_append, hhdrlen, hdroplen]
      unfold kHeaderSize kFooterSize
      omega
    · rw [hfile, hhdr]
      simp only [List.append_assoc]
      rw [List.take_left' (ehdrBytes_length c)]
    · rw [hfile, hhdr]
      simp only [List.append_assoc]
      rw [List.drop_left' (ehdrBytes_length c),
        List.take_left' (phdr1Bytes_length c)]
    · have h84 : (ehdrBytes c ++ phdr1Bytes c).length = 84 := by
        simp [ehdrBytes_length, phdr1Bytes_length]
      rw [hfile, hhdr, List.append_assoc (ehdrBytes c ++ phdr1Bytes c),
        List.drop_left' h84, List.take_left' phdr2Bytes_length]
    · rw [hfile, List.drop_left' hhdrlen,
        slice_eq_of_take_eq hbuf2take (by omega)]
      rfl
    · rw [hfile]
      have hge : 116 + c = hdr.length + c := by rw [hhdrlen]
      rw [hge, List.drop_append]
      have hdc : buf2.drop 116 = (stOps.buf ++ newlineExitBytes).drop 116 ++ tail := by
        rw [hassoc, List.drop_append_of_le_length (by rw [hbuf1len]; omega)]
      rw [hdc]
      have hlen116 : ((stOps.buf ++ newlineExitBytes).drop 116).length = c := by
        simp only [List.length_drop, hbuf1len]
        omega
      rw [List.drop_left' hlen116, htail]

/-- Claim C3: every byte stream the ELF x86 backend emits has the
Elf32_Ehdr at offset 0, two Elf32_Phdr at offsets 52 and 84 — a PT_LOAD
R+X segment loading the code at 0x04048000 and a PT_LOAD R+W segment for
the tape at 0x04248000 — the machine code beginning at offset
sizeof(Elf32_Ehdr) + 2*sizeof(Elf32_Phdr) = 116 (with the header's
`mov ecx, kBssAddr` as first instruction), and the section string table
followed by the four section headers (null, .shstrtbl, .text, .bss)
appended directly after the code. -/
theorem c3_elf_file_layout (ops : List ElfOp) (file : List Nat)
    (h : emitProgramElf ops = some file) :
    kTextAddr = 0x04048000 ∧ kBssAddr = 0x04248000 ∧
    ∃ codeSize,
      file.length = 116 + codeSize + 22 + 160 ∧
      file.take 52 = ehdrBytes codeSize ∧
      (file.drop 52).take 32 = phdr1Bytes codeSize ∧
      (file.drop 84).take 32 = phdr2Bytes ∧
      (file.drop 52).take 4 = le32 1 ∧
      (file.drop 76).take 4 = le32 5 ∧
      (file.drop 60).take 4 = le32 kTextAddr ∧
      (file.drop 84).take 4 = le32 1 ∧
      (file.drop 108).take 4 = le32 6 ∧
      (file.drop 92).take 4 = le32 kBssAddr ∧
      (file.drop 116).take 5 = 0xb9 :: le32 kBssAddr ∧
      file.drop (116 + codeSize)
        = shStrTblBytes ++ shdr0Bytes ++ shdr1Bytes codeSize ++ shdr2Bytes codeSize
            ++ shdr3Bytes := by
  obtain ⟨c, h1, h2, h3, h4, h5, h6⟩ := elf_layout h
  have hp1 : ∀ m k, m + k ≤ 32 →
      (file.drop (52 + m)).take k = ((phdr1Bytes c).drop m).take k := by
    intro m k hmk
    rw [← List.drop_drop]
    exact slice_eq_of_take_eq h3 hmk
  have hp2 : ∀ m k, m + k ≤ 32 →
      (file.drop (84 + m)).take k = (phdr2Bytes.drop m).take k := by
    intro m k hmk
    rw [← List.drop_drop]
    exact slice_eq_of_take_eq h4 hmk
  refine ⟨rfl, rfl, c, by simpa using h1, h2, h3, h4, ?_, ?_, ?_, ?_, ?_, ?_, h5, h6⟩
  · rw [show (52 : Nat) = 52 + 0 from rfl, hp1 0 4 (by omega)]
    rfl
  · rw [show (76 : Nat) = 52 + 24 from rfl, hp1 24 4 (by omega)]
    rfl
  · rw [show (60 : Nat) = 52 + 8 from rfl, hp1 8 4 (by omega)]
    rfl
  · rw [show (84 : Nat) = 84 + 0 from rfl, hp2 0 4 (by omega)]
    rfl
  · rw [show (108 : Nat) = 84 + 24 from rfl, hp2 24 4 (by omega)]
    rfl
  · rw [show (92 : Nat) = 84 + 8 from rfl, hp2 8 4 (by omega)]
    rfl

/-- Witness for `c3_elf_file_layout` at the listing `[LoopStart, LoopEnd]`. -/
theorem c3_elf_file_layout_witness :
    ∃ file, emitProgramElf [ElfOp.loopStart, ElfOp.loopEnd] = some file ∧
      file.take 52 = ehdrBytes (file.length - 298) := by
  rcases hh : emitProgramElf [ElfOp.loopStart, ElfOp.loopEnd] with _ | file
  · have hs : (emitProgramElf [ElfOp.loopStart, ElfOp.loopEnd]).isSome = true := by
      set_option maxRecDepth 40000 in decide
    rw [hh] at hs
    exact absurd hs (by simp)
  · obtain ⟨_, _, c, h1, h2, _⟩ := c3_elf_file_layout _ file hh
    have hc : c = file.length - 298 := by omega
    exact ⟨file, rfl, by rw [← hc]; exact h2⟩

/-- Witness for `c2_loop_end_backpatch` at the state directly after
`emitHeaderImpl` and one `emitLoopStartImpl` (LoopStart offset 121). -/
theorem c2_loop_end_backpatch_witness :
    (emitLoopStartElf emitHeaderElf).loopStack = 121 :: [] ∧
      ∃ st', emitLoopEndElf (emitLoopStartElf emitHeaderElf) = some st' ∧
        st'.loopStack = [] := by
  obtain ⟨st', h1, h2, _⟩ := c2_loop_end_backpatch (emitLoopStartElf emitHeaderElf) 121 []
    (by set_option maxRecDepth 40000 in decide)
    (by set_option maxRecDepth 40000 in decide)
    (by set_option maxRecDepth 40000 in decide)
  exact ⟨by set_option maxRecDepth 40000 in decide, st', h1, h2⟩

/-! ### InfLoop semantics (claim C7)

For the ELF backend the InfLoop code is, byte for byte, the IfStart
compare-and-branch, a jump-to-self, and the IfEnd backpatch; `fragRun`
gives the two emitted instruction forms their x86 meaning (neither
instruction writes memory or performs I/O, so a run that stays inside the
fragment has no side effects).  For the C backend the emitted statement
is an `if (*p)` around an eternal `for`, whose statement-level semantics
`execCFrag` models with fuel (`none` for every fuel = divergence). -/

/-- The eleven bytes `emitInfLoopImpl` leaves in the sink once the IfEnd
hook has patched the forward displacement to 2: compare the cell with 0,
`je +2` past the self-jump, `jmp -2` onto itself. -/
def infLoopBytes : List Nat :=
  [0x80, 0x39, 0x00, 0x0f, 0x84, 2, 0, 0, 0, 0xeb, 0xfe]

/-- One decoded step at `pc` for the two instruction forms the fragment
uses: fused `cmp byte ptr [ecx], imm8` + `je rel32`, and `jmp rel8`. -/
def decodeStep (code : List Nat) (cell : Nat) (pc : Nat) : Option Nat :=
  match code.drop pc with
  | 0x80 :: 0x39 :: imm :: 0x0f :: 0x84 :: b0 :: b1 :: b2 :: b3 :: _ =>
    some (if cell = imm % 256
      then (((pc : Int) + 9) + dec32 [b0, b1, b2, b3]).toNat
      else pc + 9)
  | 0xeb :: b :: _ => some ((((pc : Int) + 2) + sext8 b).toNat)
  | _ => none

/-- Run the fragment until control reaches its end (`some pc`) or the
fuel runs out / decoding fails (`none`). -/
def fragRun (code : List Nat) (cell : Nat) : Nat → Nat → Option Nat
  | 0, _ => none
  | fuel + 1, pc =>
    if pc = code.length then some pc
    else
      match decodeStep code cell pc with
      | none => none
      | some pc2 => fragRun code cell fuel pc2

theorem fragRun_infLoop_stuck (cell : Nat) :
    ∀ fuel, fragRun infLoopBytes cell fuel 9 = none := by
  intro fuel
  induction fuel with
  | zero => rfl
  | succ n ih =>
    rw [fragRun]
    rw [if_neg (by decide)]
    have hdec : decodeStep infLoopBytes cell 9 = some 9 := rfl
    rw [hdec]
    exact ih

theorem fragRun_infLoop_diverges (cell : Nat) (hc : cell ≠ 0) :
    ∀ fuel, fragRun infLoopBytes cell fuel 0 = none := by
  intro fuel
  cases fuel with
  | zero => rfl
  | succ n =>
    rw [fragRun, if_neg (by decide)]
    have hdec : decodeStep infLoopBytes cell 0
        = some (if cell = 0 then 11 else 9) := rfl
    rw [hdec, if_neg hc]
    exact fragRun_infLoop_stuck cell n

/-- The sequence IfStart hook, self-jump bytes, IfEnd hook — what the
source of `emitInfLoopImpl` literally performs. -/
def ifSelfJumpEndIf (st : ElfState) : Option ElfState :=
  emitEndIfElf ⟨(emitIfElf st).buf ++ [0xeb, 0xfe], (emitIfElf st).loopStack⟩

theorem emitInfLoopElf_eq (st : ElfState) :
    emitInfLoopElf st = some ⟨st.buf ++ infLoopBytes, st.loopStack⟩ := by
  unfold emitInfLoopElf emitEndIfElf emitIfElf emitLoopStartElf
  dsimp only
  rw [if_pos (by simp [loopStartBytes, le32])]
  have hassoc : st.buf ++ loopStartBytes ++ [0xeb, 0xfe]
      = st.buf ++ (loopStartBytes ++ [0xeb, 0xfe]) := by
    rw [List.append_assoc]
  have hlen : (st.buf ++ loopStartBytes ++ [0xeb, 0xfe]).length
      = st.buf.length + 11 := by simp [loopStartBytes, le32]
  have harg : ((st.buf ++ loopStartBytes ++ [0xeb, 0xfe]).length : Int)
      - (↑st.buf.length + 5) - 4 = 2 := by
    rw [hlen]
    push_cast
    ring
  rw [harg]
  have hwrite : writeAt (st.buf ++ loopStartBytes ++ [0xeb, 0xfe])
      (st.buf.length + 5) (le32 2) = st.buf ++ infLoopBytes := by
    rw [hassoc]
    unfold writeAt
    rw [List.take_append 5,
      show st.buf.length + 5 + (le32 2).length = st.buf.length + 9 from by
        simp [le32],
      List.drop_append 9]
    simp only [List.append_assoc]
    congr 1
  rw [hwrite]

/-- Statements of the C fragment the C backend emits for InfLoop: an
`if (*p)` guard and an eternal `for (;;)` loop. -/
inductive CFrag where
  | cifNZ (body : List CFrag)
  | cforever

/-- Fuel semantics of the C fragment statements acting on the current
cell: `some ()` is normal completion, `none` for every fuel is
divergence; no statement of the fragment writes the tape or performs
I/O. -/
def execCFrag (cell : Nat) : Nat → List CFrag → Option Unit
  | 0, _ => none
  | _ + 1, [] => some ()
  | fuel + 1, s :: rest =>
    match s with
    | .cifNZ body =>
      if cell = 0 then execCFrag cell fuel rest
      else execCFrag cell fuel (body ++ rest)
    | .cforever => none

/-- The statement list `if (*p) { for (;;); }`. -/
def cInfLoopStmts : List CFrag := [CFrag.cifNZ [CFrag.cforever]]

theorem execCFrag_infLoop_diverges (cell : Nat) (hc : cell ≠ 0) :
    ∀ fuel, execCFrag cell fuel cInfLoopStmts = none := by
  intro fuel
  match fuel with
  | 0 => rfl
  | 1 => simp [execCFrag, cInfLoopStmts, hc]
  | n + 2 => simp [execCFrag, cInfLoopStmts, hc]

theorem indentText_succ (n : Nat) :
    indentText (n + 1) = indentText n ++ cIndent := rfl

/-- Claim C7: in both backends present in the sources, the code emitted
for InfLoop realises `IfStart; jump-to-self; IfEnd`: in the ELF x86
backend `emitInfLoopImpl` literally invokes the IfStart hook, a
self-jump, and the IfEnd hook, the resulting eleven bytes are the
compare-and-branch around `jmp -2`, and executing them is a no-op
reaching the fragment end when the cell is zero and an eternal self-loop
(with no memory writes or I/O) when it is non-zero; in the C backend the
emitted text is `if (*p)` around `for (;;);`, a statement whose execution
completes without effects on a zero cell and diverges on a non-zero
cell. -/
theorem c7_infloop_equivalence :
    (∀ st : ElfState, emitInfLoopElf st = ifSelfJumpEndIf st) ∧
      (∀ st : ElfState, emitInfLoopElf st = some ⟨st.buf ++ infLoopBytes, st.loopStack⟩) ∧
      fragRun infLoopBytes 0 2 0 = some infLoopBytes.length ∧
      (∀ cell : Nat, cell ≠ 0 → ∀ fuel, fragRun infLoopBytes cell fuel 0 = none) ∧
      (∀ st : CGenState, (emitOpC COp.infLoop st).out
          = st.out ++ (indentText st.indentLevel ++ "if (*p) \x7b\n"
              ++ (indentText (st.indentLevel + 1) ++ "for (;;);\n"
                ++ (indentText st.indentLevel ++ "\x7d\n")))) ∧
      (∀ cell : Nat, cell = 0 → execCFrag cell 2 cInfLoopStmts = some ()) ∧
      (∀ cell : Nat, cell ≠ 0 → ∀ fuel, execCFrag cell fuel cInfLoopStmts = none) := by
  refine ⟨fun st => rfl, emitInfLoopElf_eq, by decide, fragRun_infLoop_diverges,
    ?_, ?_, execCFrag_infLoop_diverges⟩
  · intro st
    rw [show (emitOpC COp.infLoop st).out
        = st.out ++ (indentText st.indentLevel ++ "if (*p) \x7b\n"
          ++ indentText st.indentLevel ++ cIndent ++ "for (;;);\n"
          ++ indentText st.indentLevel ++ "\x7d\n") from rfl]
    rw [indentText_succ]
    simp [String.append_assoc]
  · intro cell hc
    rw [hc]
    rfl

/-- Witness for `c7_infloop_equivalence` at the empty sink, cell values 0
and 5, and the header state of the C generator. -/
theorem c7_infloop_equivalence_witness :
    emitInfLoopElf ⟨[], []⟩ = some ⟨infLoopBytes, []⟩ ∧
      (∀ fuel, fragRun infLoopBytes 5 fuel 0 = none) ∧
      execCFrag 0 2 cInfLoopStmts = some () ∧
      (∀ fuel, execCFrag 5 fuel cInfLoopStmts = none) := by
  obtain ⟨_, h2, _, h4, _, h6, h7⟩ := c7_infloop_equivalence
  exact ⟨by simpa using h2 ⟨[], []⟩, h4 5 (by decide), h6 0 rfl, h7 5 (by decide)⟩

/-! ### Heap-size independence of emission (claim C8) -/

theorem emitOpC_out (op : COp) (st : CGenState) :
    ∃ s, (emitOpC op st).out = st.out ++ s :=
  ⟨emitOpCText op st.indentLevel, rfl⟩

theorem emitOpsC_out (ops : List COp) :
    ∀ st : CGenState, ∃ s, (emitOpsC ops st).out = st.out ++ s := by
  induction ops with
  | nil => exact fun st => ⟨"", by simp [emitOpsC]⟩
  | cons op rest ih =>
    intro st
    obtain ⟨s2, h2⟩ := ih (emitOpC op st)
    obtain ⟨s1, h1⟩ := emitOpC_out op st
    refine ⟨s1 ++ s2, ?_⟩
    rw [show emitOpsC (op :: rest) st = emitOpsC rest (emitOpC op st) from rfl,
      h2, h1, String.append_assoc]

/-- Claim C8: the emit operation never reads `heap_size` — two
configurations differing only in `heap_size` drive the CLI's target
branch to the very same result — and the emitted artifacts hard-code the
65536-cell tape: every emitted C program contains the literal
`#define MEMORY_SIZE 65536`, and every emitted ELF file maps a BSS
segment of 0x00010000 bytes (`p_memsz` of the second program header). -/
theorem c8_heap_size_independence :
    (∀ (cfg : CliConfig) (w : CliWorld) (h1 h2 : Nat), cfg.target ≠ [] →
      mainV3 { cfg with heapSize := h1 } w = mainV3 { cfg with heapSize := h2 } w) ∧
      (∀ ops : List COp, ∃ pre post,
        cProgramText ops = pre ++ ("#define MEMORY_SIZE 65536\n\n" ++ post)) ∧
      (∀ (ops : List ElfOp) (file : List Nat), emitProgramElf ops = some file →
        (file.drop 104).take 4 = le32 65536) := by
  refine ⟨?_, ?_, ?_⟩
  · intro cfg w h1 h2 htarget
    have htail : ∀ f, mainV3AfterLoad { cfg with heapSize := h1 } w f
        = mainV3AfterLoad { cfg with heapSize := h2 } w f := by
      intro f
      unfold mainV3AfterLoad
      dsimp only
      by_cases hm : cfg.minify = true
      · rw [if_pos hm, if_pos hm]
      · rw [if_neg hm, if_neg hm]
        by_cases hd : cfg.dumpIr = true
        · rw [if_pos hd, if_pos hd]
        · rw [if_neg hd, if_neg hd]
          rw [if_pos htarget, if_pos htarget]
    unfold mainV3
    dsimp only
    by_cases hh : cfg.help = true
    · rw [if_pos hh, if_pos hh]
    · rw [if_neg hh, if_neg hh]
      by_cases hv : cfg.version = true
      · rw [if_pos hv, if_pos hv]
      · rw [if_neg hv, if_neg hv]
        by_cases hsrc : cfg.evalSrc = [] ∧ cfg.args = []
        · rw [if_pos hsrc, if_pos hsrc]
        · rw [if_neg hsrc, if_neg hsrc]
          by_cases he : cfg.evalSrc = []
          · rw [if_neg (show ¬cfg.evalSrc ≠ [] from fun hne => hne he)]
            cases hargs : cfg.args with
            | nil =>
              rw [hargs] at htail
              dsimp only
              exact htail _
            | cons a rest =>
              rw [hargs] at htail
              dsimp only
              by_cases ha : a = ['-']
              · rw [if_pos ha]
                dsimp only
                cases hls : w.loadStdinResult with
                | none =>
                  dsimp only
                  exact htail _
                | some msg => rfl
              · rw [if_neg ha]
                dsimp only
                cases hlf : w.loadFileResult a with
                | none =>
                  dsimp only
                  exact htail _
                | some msg => rfl
          · rw [if_pos (show cfg.evalSrc ≠ [] from he)]
            dsimp only
            exact htail _
  · intro ops
    obtain ⟨s, hs⟩ := emitOpsC_out ops headerCState
    refine ⟨"#include <signal.h>\n#include <stdio.h>\n#include <stdlib.h>\n#include <string.h>\n\n",
      "#ifdef _MSC_VER\n#  define debugbreak __debugbreak\n#else\n"
        ++ "__attribute__((gnu_inline, always_inline))\n__inline__ static void\ndebugbreak(void)\n\x7b\n"
        ++ "#  if defined(__i386__) || defined(__x86_64__)\n  __asm__ volatile(\"int $0x03\");\n"
        ++ "#  elif defined(__thumb__)\n  __asm__ volatile(\".inst 0xde01\");\n"
        ++ "#  elif defined(__arm__) && !defined(__thumb__)\n  __asm__ volatile(\".inst 0xe7f001f0\");\n"
        ++ "#  elif defined(__aarch64__) && defined(__APPLE__)\n  __builtin_trap();\n"
        ++ "#  elif defined(__aarch64__)\n  __asm__ volatile(\".inst 0xd4200000\");\n"
        ++ "#  elif defined(_WIN32)\n  __builtin_trap();\n"
        ++ "#  else\n  raise(SIGTRAP);\n#  endif\n\x7d\n#endif\n\n"
        ++ "int\nmain(void)\n\x7b\n"
        ++ cIndent ++ "unsigned char memory[MEMORY_SIZE] = \x7b0\x7d;\n"
        ++ cIndent ++ "unsigned char *p = memory;\n\n"
        ++ s ++ cIndent ++ "putchar('\\n');\n\n" ++ cIndent
        ++ "return EXIT_SUCCESS;\n\x7d\n", ?_⟩
    unfold cProgramText emitFooterC
    dsimp only
    rw [hs]
    have h0 : headerCState.out = cHeaderText := by
      rw [show headerCState.out = "" ++ cHeaderText from rfl]
      simp
    rw [h0]
    unfold cHeaderText
    simp only [String.append_assoc]
  · intro ops file h
    obtain ⟨c, _, _, _, h4, _, _⟩ := elf_layout h
    have h104 : (file.drop (84 + 20)).take 4 = (phdr2Bytes.drop 20).take 4 := by
      rw [← List.drop_drop]
      exact slice_eq_of_take_eq h4 (by omega)
    rw [show (104 : Nat) = 84 + 20 from rfl, h104]
    rfl

/-- Witness for `c8_heap_size_independence`: target c with heap sizes 1
and 2, the empty op listing for both backends. -/
theorem c8_heap_size_independence_witness :
    mainV3
        { defaultConfig with
            target := ("c").data
            args := [("a.b").data]
            heapSize := 1 } okWorld
      = mainV3
        { defaultConfig with
            target := ("c").data
            args := [("a.b").data]
            heapSize := 2 } okWorld ∧
      (∃ pre post, cProgramText [] = pre ++ ("#define MEMORY_SIZE 65536\n\n" ++ post)) := by
  constructor
  · exact c8_heap_size_independence.1
      { defaultConfig with target := ("c").data, args := [("a.b").data] }
      okWorld 1 2 (by decide)
  · exact c8_heap_size_independence.2.1 []

end CppBrainfuck
